import Mathlib

/-!
# News search front end (`main.go`)

A shallow embedding of the search handler of the news front end: query
normalisation (`q`, `page`), construction of the upstream request URL,
status and decode handling, pagination arithmetic and the view model
handed to the template.

Conventions of the embedding

* Go strings are byte sequences: `GoString = List Byte`, `Byte = Fin 256`.
* Go `int` is the 64-bit signed integer of the usual targets; values are
  carried as `Int`, and `wrapInt64` is applied where the source can overflow.
* Library routines used by the handler (`strconv.Atoi`, `url.QueryEscape`,
  `url.ParseQuery`, `fmt.Sprintf` with `%d`, `encoding/json`, `float64`
  arithmetic and `math.Ceil`) are embedded from their documented behaviour.
  The RFC 3339 parser of `time` and the range check of `strconv.ParseFloat`
  are parameters (`Parsers`), as are the upstream service and the template.
* Effects of the handler (the outbound GET, the JSON decode, the template
  execution, `http.Error`) are recorded as a list of events, in program order.
  Logging is not recorded.
-/

namespace NewsApp

/-! ## Strings -/

/-- A byte of a Go string. -/
abbrev Byte := Fin 256

/-- A Go string: a sequence of bytes. -/
abbrev GoString := List Byte

/-- The byte of an ASCII character. -/
def charByte (c : Char) : Byte := Fin.ofNat c.toNat

/-- The bytes of an ASCII literal. -/
def ascii (s : String) : GoString := s.toList.map charByte

/-! ## `strconv` -/

/-- The two error kinds of `strconv.NumError`. -/
inductive NumError where
  | ErrSyntax
  | ErrRange
  deriving DecidableEq, Repr

/-- The largest `uint64`. -/
def maxUint64 : Nat := 2 ^ 64 - 1

/-- The largest `int64` (and `int`). -/
def maxInt64 : Int := 2 ^ 63 - 1

/-- The smallest `int64` (and `int`). -/
def minInt64 : Int := -(2 ^ 63)

/-- Two's-complement wrap-around of a mathematical integer to `int64`. -/
def wrapInt64 (x : Int) : Int := (x + 2 ^ 63) % 2 ^ 64 - 2 ^ 63

/-- The digit loop of `strconv.ParseUint(s, 10, 64)`, with `n` the value
accumulated so far. A byte that is not a decimal digit is a syntax error (in
base 10 letters are digits of value at least 10, underscores are only allowed
with base 0); the value leaving the `uint64` range is a range error, reported
as soon as it happens. -/
def parseUintLoop : GoString → Nat → Except NumError Nat
  | [], n => .ok n
  | c :: cs, n =>
    if 48 ≤ c.val ∧ c.val ≤ 57 then
      if n ≥ maxUint64 / 10 + 1 then .error .ErrRange
      else if n * 10 + (c.val - 48) > maxUint64 then .error .ErrRange
      else parseUintLoop cs (n * 10 + (c.val - 48))
    else .error .ErrSyntax

/-- The function `strconv.ParseUint(s, 10, 64)`. -/
def ParseUint (s : GoString) : Except NumError Nat :=
  if s = [] then .error .ErrSyntax else parseUintLoop s 0

/-- The function `strconv.ParseInt(s, 10, 0)` on a 64-bit target: an optional
sign (`neg` is `c = '-'`), then `ParseUint` on the rest, then the range check
against `1 << 63`. -/
def ParseInt (s : GoString) : Except NumError Int :=
  match s with
  | [] => .error .ErrSyntax
  | c :: cs =>
    match ParseUint (if c.val = 43 ∨ c.val = 45 then cs else s) with
    | .error e => .error e
    | .ok un =>
      if ¬ c.val = 45 ∧ un ≥ 2 ^ 63 then .error .ErrRange
      else if c.val = 45 ∧ un > 2 ^ 63 then .error .ErrRange
      else if c.val = 45 then .ok (-(un : Int))
      else .ok (un : Int)

/-- The function `strconv.Atoi`: "equivalent to `ParseInt(s, 10, 0)`, converted
to type `int`" (its fast path for short inputs computes the same result). -/
def Atoi (s : GoString) : Except NumError Int := ParseInt s

/-- The decimal digits of a natural number, as `fmt` prints them. -/
def decimalText (n : Nat) : GoString := (Nat.toDigits 10 n).map charByte

/-- The verb `%d` of `fmt.Sprintf` applied to an `int`. -/
def formatInt (x : Int) : GoString :=
  if x < 0 then (45 : Byte) :: decimalText x.natAbs else decimalText x.natAbs

/-! ## `net/url` -/

/-- The predicate `shouldEscape(c, encodeQueryComponent)`: only the unreserved
characters (letters, digits, `-`, `_`, `.`, `~`) are left alone. -/
def shouldEscape (c : Byte) : Bool :=
  if (97 ≤ c.val ∧ c.val ≤ 122) ∨ (65 ≤ c.val ∧ c.val ≤ 90) ∨ (48 ≤ c.val ∧ c.val ≤ 57) then false
  else if c.val = 45 ∨ c.val = 95 ∨ c.val = 46 ∨ c.val = 126 then false
  else true

/-- The table `upperhex = "0123456789ABCDEF"`, indexed by a nibble. -/
def upperhex (d : Nat) : Byte := if d < 10 then Fin.ofNat (48 + d) else Fin.ofNat (55 + d)

/-- The function `url.QueryEscape`: a space becomes `+`, every other byte that
`shouldEscape` becomes `%XX`, the rest is copied. -/
def QueryEscape : GoString → GoString
  | [] => []
  | c :: cs =>
    if c.val = 32 then (43 : Byte) :: QueryEscape cs
    else if shouldEscape c then
      (37 : Byte) :: upperhex (c.val / 16) :: upperhex (c.val % 16) :: QueryEscape cs
    else c :: QueryEscape cs

/-- The predicate `ishex`. -/
def ishex (c : Byte) : Bool :=
  (48 ≤ c.val ∧ c.val ≤ 57) ∨ (97 ≤ c.val ∧ c.val ≤ 102) ∨ (65 ≤ c.val ∧ c.val ≤ 70)

/-- The function `unhex`. -/
def unhex (c : Byte) : Nat :=
  if 48 ≤ c.val ∧ c.val ≤ 57 then c.val - 48
  else if 97 ≤ c.val ∧ c.val ≤ 102 then c.val - 97 + 10
  else if 65 ≤ c.val ∧ c.val ≤ 70 then c.val - 65 + 10
  else 0

/-- First pass of `unescape`: every `%` is followed by two hex digits. -/
def unescapeValid : GoString → Bool
  | [] => true
  | c :: cs =>
    if c.val = 37 then
      match cs with
      | h1 :: h2 :: rest => ishex h1 && ishex h2 && unescapeValid rest
      | _ => false
    else unescapeValid cs

/-- Second pass of `unescape` in query-component mode: `%XX` becomes the byte
`unhex(X) << 4 | unhex(X)`, `+` becomes a space. -/
def unescapeBytes : GoString → GoString
  | [] => []
  | c :: cs =>
    if c.val = 37 then
      match cs with
      | h1 :: h2 :: rest => Fin.ofNat (unhex h1 * 16 + unhex h2) :: unescapeBytes rest
      | _ => []
    else if c.val = 43 then (32 : Byte) :: unescapeBytes cs
    else c :: unescapeBytes cs

/-- The function `url.QueryUnescape`; `none` stands for an `EscapeError`. -/
def QueryUnescape (s : GoString) : Option GoString :=
  if unescapeValid s then some (unescapeBytes s) else none

/-- The function `strings.Cut(s, sep)` for a one-byte separator: the text
before the first `sep`, and the text after it when there is one. -/
def cut (sep : Byte) : GoString → GoString × Option GoString
  | [] => ([], none)
  | c :: cs =>
    if c = sep then ([], some cs)
    else (c :: (cut sep cs).1, (cut sep cs).2)

/-- The pieces of a query string separated by `&`. -/
def splitAmp : GoString → GoString → List GoString
  | [], cur => [cur.reverse]
  | c :: cs, cur =>
    if c.val = 38 then cur.reverse :: splitAmp cs []
    else splitAmp cs (c :: cur)

/-- The type `url.Values`, kept as the key/value pairs in the order in which
`ParseQuery` appends them. -/
abbrev Values := List (GoString × GoString)

/-- What `parseQuery` does with one `&`-separated piece: a piece with a `;`,
an empty piece, or a piece whose key or value does not unescape adds nothing. -/
def parsePair (piece : GoString) : Option (GoString × GoString) :=
  if (59 : Byte) ∈ piece then none
  else if piece = [] then none
  else
    match QueryUnescape (cut 61 piece).1, QueryUnescape ((cut 61 piece).2.getD []) with
    | some k, some v => some (k, v)
    | _, _ => none

/-- The function `url.ParseQuery` (pairs separated by `&` only, as since
Go 1.17), errors dropped as `URL.Query` drops them. -/
def ParseQuery (query : GoString) : Values :=
  (splitAmp query []).filterMap parsePair

/-- The method `Values.Get`: the first value stored under the key, or the
empty string. -/
def Values.Get (v : Values) (key : GoString) : GoString :=
  match v.find? (fun kv => kv.1 = key) with
  | some kv => kv.2
  | none => []

/-- The type `url.URL`, reduced to the component the handler reads. -/
structure URL where
  RawQuery : GoString

/-- The method `URL.Query`. -/
def URL.Query (u : URL) : Values := ParseQuery u.RawQuery

/-! ## `float64` arithmetic

Only positive finite values occur (the conversion is guarded by
`TotalResults > 0`), all of them far inside the normal exponent range, so a
value is kept as `mant * 2 ^ exp` and the exponent range is not modelled. -/

/-- A non-negative finite `float64`, of value `mant * 2 ^ exp`. -/
structure Float64 where
  mant : Nat
  exp : Int
  deriving DecidableEq, Repr

/-- Floor of the binary logarithm, by halving at most `fuel` times. -/
def log2Floor : Nat → Nat → Nat
  | 0, _ => 0
  | fuel + 1, n => if n < 2 then 0 else log2Floor fuel (n / 2) + 1

/-- Floor of the binary logarithm of a positive number. -/
def ilog2 (n : Nat) : Nat := log2Floor n n

/-- The integer nearest to `num / den`, a tie going to the even one. -/
def roundHalfEven (num den : Nat) : Nat :=
  if 2 * (num % den) < den then num / den
  else if den < 2 * (num % den) then num / den + 1
  else if (num / den) % 2 = 0 then num / den
  else num / den + 1

/-- The `float64` nearest to the positive rational `num / den` (IEEE 754
round-to-nearest, ties to even, 53 significant bits). The exponent `e` is
chosen so that `2 ^ 52 ≤ (num / den) / 2 ^ e < 2 ^ 53`. -/
def Float64.round (num den : Nat) : Float64 :=
  if num = 0 then ⟨0, 0⟩
  else
    let e0 : Int := (ilog2 num : Int) - (ilog2 den : Int) - 52
    let e : Int :=
      if num * 2 ^ (-e0).toNat < den * 2 ^ e0.toNat * 2 ^ 52 then e0 - 1 else e0
    ⟨roundHalfEven (num * 2 ^ (-e).toNat) (den * 2 ^ e.toNat), e⟩

/-- The conversion `float64(n)` of a positive `int`. -/
def Float64.ofInt (n : Int) : Float64 := Float64.round n.toNat 1

/-- The quotient `x / y` of two `float64` values, `y` not zero: the exact
quotient, rounded. -/
def Float64.div (x y : Float64) : Float64 :=
  Float64.round (x.mant * 2 ^ (x.exp - y.exp).toNat) (y.mant * 2 ^ (y.exp - x.exp).toNat)

/-- The function `math.Ceil`: the least integer value not below `x`. -/
def Float64.Ceil (x : Float64) : Float64 :=
  if 0 ≤ x.exp then ⟨x.mant * 2 ^ x.exp.toNat, 0⟩
  else ⟨(x.mant + 2 ^ (-x.exp).toNat - 1) / 2 ^ (-x.exp).toNat, 0⟩

/-- The conversion `int(x)`: the fraction is discarded. -/
def Float64.toInt (x : Float64) : Int :=
  if 0 ≤ x.exp then ((x.mant * 2 ^ x.exp.toNat : Nat) : Int)
  else ((x.mant / 2 ^ (-x.exp).toNat : Nat) : Int)

/-! ## `encoding/json` -/

/-- A JSON value as the decoder scans it. A number keeps its literal text, a
string its unquoted bytes, an object its members in order. -/
inductive Json where
  | null
  | bool (b : Bool)
  | number (lit : GoString)
  | string (s : GoString)
  | array (elems : List Json)
  | object (members : List (GoString × Json))

/-- The instant held by a `time.Time`: seconds and nanoseconds since the zero
time, and the zone offset in seconds. -/
structure Time where
  sec : Int
  nsec : Nat
  offset : Int
  deriving DecidableEq, Repr

/-- The zero `time.Time`. -/
def Time.zero : Time := ⟨0, 0, 0⟩

/-- The two parsers of the standard library that the decoder relies on:
`parseTime s` is the outcome of `Time.UnmarshalJSON` on a JSON string of
content `s` written without escape sequences (`none`: an error), and
`parseFloat lit` tells whether `strconv.ParseFloat(lit, 64)` accepts a number
literal (it rejects the literals that overflow `float64`). -/
structure Parsers where
  parseTime : GoString → Option Time
  parseFloat : GoString → Bool

mutual
/-- Whether every number inside a JSON value converts to `float64`, as decoding
into an `interface{}` requires. -/
def Json.numbersOK (ok : GoString → Bool) : Json → Bool
  | .number lit => ok lit
  | .array elems => Json.elemsOK ok elems
  | .object members => Json.membersOK ok members
  | _ => true
/-- The same for the elements of an array. -/
def Json.elemsOK (ok : GoString → Bool) : List Json → Bool
  | [] => true
  | x :: xs => x.numbersOK ok && Json.elemsOK ok xs
/-- The same for the members of an object. -/
def Json.membersOK (ok : GoString → Bool) : List (GoString × Json) → Bool
  | [] => true
  | kv :: ms => kv.2.numbersOK ok && Json.membersOK ok ms
end

/-! ## Data model -/

/-- The struct `Source`; `ID` is an `interface{}`, kept as the JSON value it was
decoded from (`null` for the nil interface). -/
structure Source where
  ID : Json
  Name : GoString

/-- The struct `Article`. -/
structure Article where
  Source : Source
  Author : GoString
  Title : GoString
  Description : GoString
  URL : GoString
  URLToImage : GoString
  PublishedAt : Time
  Content : GoString

/-- The struct `Results`; a nil `Articles` slice is the empty list. -/
structure Results where
  Status : GoString
  TotalResults : Int
  Articles : List Article

/-- The struct `Search`, the data handed to the template. -/
structure Search where
  SearchKey : GoString
  QueryPage : Int
  TotalPages : Int
  Results : Results

/-- The zero value of `Source`. -/
def Source.zero : Source := ⟨Json.null, []⟩

/-- The zero value of `Article`. -/
def Article.zero : Article := ⟨Source.zero, [], [], [], [], [], Time.zero, []⟩

/-- The zero value of `Results`. -/
def Results.zero : Results := ⟨[], 0, []⟩

/-- The method `IsLastPage`. -/
def Search.IsLastPage (s : Search) : Bool := decide (s.QueryPage ≥ s.TotalPages)

/-- The method `NextPageLink`. -/
def Search.NextPageLink (s : Search) : Int := wrapInt64 (s.QueryPage + 1)

/-- The method `PrevPageLink`. -/
def Search.PrevPageLink (s : Search) : Int := wrapInt64 (s.QueryPage - 1)

/-! ### Decoding into the data model

`Unmarshal` semantics: a JSON `null` leaves a non-pointer target untouched, an
unknown key is skipped, a key matches a field name exactly or up to case, a
value of the wrong JSON kind makes the whole decode fail (here: `none`).
A repeated key is decoded into what the earlier occurrence stored (for a
slice, element by element; what an earlier occurrence left beyond the length
of the slice is not kept). -/

/-- One byte put in front of an already folded key: ASCII letters go to
lower case, and the two other characters whose fold class contains an ASCII
letter are replaced by it (U+017F, bytes `C5 BF`, by `s`; U+212A, bytes
`E2 84 AA`, by `k`). -/
def foldStep (c : Byte) (out : GoString) : GoString :=
  match out with
  | d :: e :: rest =>
    if c.val = 197 ∧ d.val = 191 then (115 : Byte) :: e :: rest
    else if c.val = 226 ∧ d.val = 132 ∧ e.val = 170 then (107 : Byte) :: rest
    else (if 65 ≤ c.val ∧ c.val ≤ 90 then Fin.ofNat (c.val + 32) else c) :: out
  | [d] =>
    if c.val = 197 ∧ d.val = 191 then [(115 : Byte)]
    else (if 65 ≤ c.val ∧ c.val ≤ 90 then Fin.ofNat (c.val + 32) else c) :: out
  | [] => [if 65 ≤ c.val ∧ c.val ≤ 90 then Fin.ofNat (c.val + 32) else c]

/-- Case folding of an object key as `encoding/json` compares it with an ASCII
field name, computed from the end of the key (the byte sequences of U+017F and
U+212A cannot overlap, so the direction does not matter). -/
def foldKey : GoString → GoString
  | [] => []
  | c :: cs => foldStep c (foldKey cs)

/-- Whether an object key selects the field with the given JSON name. -/
def keyIs (key : GoString) (field : String) : Bool :=
  decide (foldKey key = foldKey (ascii field))

/-- Decoding into a `string` field holding `old`. -/
def unmarshalString (old : GoString) : Json → Option GoString
  | .null => some old
  | .string s => some s
  | _ => none

/-- Decoding into an `int` field holding `old`: the literal goes through
`strconv.ParseInt(lit, 10, 64)`. -/
def unmarshalInt (old : Int) : Json → Option Int
  | .null => some old
  | .number lit =>
    match ParseInt lit with
    | .ok n => some n
    | .error _ => none
  | _ => none

/-- The method `Time.UnmarshalJSON` behind a field holding `old`. -/
def unmarshalTime (p : Parsers) (old : Time) : Json → Option Time
  | .null => some old
  | .string s => p.parseTime s
  | _ => none

/-- Decoding into an `interface{}` field: any JSON value whose numbers convert
to `float64`; `null` stores the nil interface. -/
def unmarshalInterface (p : Parsers) (j : Json) : Option Json :=
  if j.numbersOK p.parseFloat then some j else none

/-- One member of a JSON object decoded into a `Source`. -/
def Source.setField (p : Parsers) (s : Source) (kv : GoString × Json) : Option Source :=
  if keyIs kv.1 "id" then (unmarshalInterface p kv.2).map (fun v => { s with ID := v })
  else if keyIs kv.1 "name" then (unmarshalString s.Name kv.2).map (fun v => { s with Name := v })
  else some s

/-- Decoding into a `Source` holding `old`. -/
def unmarshalSource (p : Parsers) (old : Source) : Json → Option Source
  | .null => some old
  | .object members => members.foldlM (Source.setField p) old
  | _ => none

/-- One member of a JSON object decoded into an `Article`. -/
def Article.setField (p : Parsers) (a : Article) (kv : GoString × Json) : Option Article :=
  if keyIs kv.1 "source" then
    (unmarshalSource p a.Source kv.2).map (fun v => { a with Source := v })
  else if keyIs kv.1 "author" then
    (unmarshalString a.Author kv.2).map (fun v => { a with Author := v })
  else if keyIs kv.1 "title" then
    (unmarshalString a.Title kv.2).map (fun v => { a with Title := v })
  else if keyIs kv.1 "description" then
    (unmarshalString a.Description kv.2).map (fun v => { a with Description := v })
  else if keyIs kv.1 "url" then (unmarshalString a.URL kv.2).map (fun v => { a with URL := v })
  else if keyIs kv.1 "urlToImage" then
    (unmarshalString a.URLToImage kv.2).map (fun v => { a with URLToImage := v })
  else if keyIs kv.1 "publishedAt" then
    (unmarshalTime p a.PublishedAt kv.2).map (fun v => { a with PublishedAt := v })
  else if keyIs kv.1 "content" then
    (unmarshalString a.Content kv.2).map (fun v => { a with Content := v })
  else some a

/-- Decoding into an `Article` holding `old`. -/
def unmarshalArticle (p : Parsers) (old : Article) : Json → Option Article
  | .null => some old
  | .object members => members.foldlM (Article.setField p) old
  | _ => none

/-- The elements of a JSON array decoded into a slice holding `old`: element
`i` is decoded into `old[i]` when the slice has one, into a zero `Article`
otherwise, and the slice ends with the length of the array. -/
def unmarshalElems (p : Parsers) : List Article → List Json → Option (List Article)
  | _, [] => some []
  | old, x :: xs =>
    match unmarshalArticle p (old.headD Article.zero) x with
    | none => none
    | some a => (unmarshalElems p old.tail xs).map (fun as => a :: as)

/-- Decoding into the `[]Article` field holding `old`. -/
def unmarshalArticles (p : Parsers) (old : List Article) : Json → Option (List Article)
  | .null => some []
  | .array elems => unmarshalElems p old elems
  | _ => none

/-- One member of a JSON object decoded into a `Results`. -/
def Results.setField (p : Parsers) (r : Results) (kv : GoString × Json) : Option Results :=
  if keyIs kv.1 "status" then (unmarshalString r.Status kv.2).map (fun v => { r with Status := v })
  else if keyIs kv.1 "totalResults" then
    (unmarshalInt r.TotalResults kv.2).map (fun v => { r with TotalResults := v })
  else if keyIs kv.1 "articles" then
    (unmarshalArticles p r.Articles kv.2).map (fun v => { r with Articles := v })
  else some r

/-- The call `Decode(&searchData.Results)` on a body whose first JSON value is
`body` (`none`: the body is not JSON), the target holding `old`. -/
def decodeResults (p : Parsers) (old : Results) : Option Json → Option Results
  | none => none
  | some .null => some old
  | some (.object members) => members.foldlM (Results.setField p) old
  | some _ => none

/-! ## The handler -/

/-- The constant `http.StatusOK`. -/
def StatusOK : Int := 200

/-- The constant `http.StatusNoContent`. -/
def StatusNoContent : Int := 204

/-- The constant `http.StatusInternalServerError`. -/
def StatusInternalServerError : Int := 500

/-- The constant `http.StatusServiceUnavailable`. -/
def StatusServiceUnavailable : Int := 503

/-- What `http.Get` returns without error: the status code and the first JSON
value of the body (`none` when the body does not start with a JSON value). -/
structure Response where
  StatusCode : Int
  Body : Option Json

/-- The collaborators of the handler: the package-level `apiKey`, the upstream
service behind `http.Get` (`none`: a transport error), the package-level
template `tpl` (`true`: `Execute` returns a nil error), and the parsers
behind the JSON decoder. -/
structure Env where
  apiKey : GoString
  httpGet : GoString → Option Response
  tplExecute : Search → Bool
  parsers : Parsers

/-- The incoming request, reduced to the outcome of `url.Parse(r.URL.String())`
(`none`: an error). -/
structure Request where
  parsedURL : Option URL

/-- The observable steps of one run of the handler. -/
inductive Event where
  | httpGet (url : GoString)
  | decode (body : Option Json)
  | execute (data : Search)
  | httpError (msg : GoString) (code : Int)

/-- Lines 99 to 114 of `searchHandler`: the `Search` value built from the
parameters `q` and `page`. -/
def searchData (u : URL) : Search :=
  let params := u.Query
  let searchKey := params.Get (ascii "q")
  let pageStr := params.Get (ascii "page")
  let pageStr := if pageStr = [] then ascii "1" else pageStr
  let page : Int :=
    match Atoi pageStr with
    | .error _ => 1
    | .ok page => if page < 1 then 1 else page
  { SearchKey := searchKey, QueryPage := page, TotalPages := 0, Results := Results.zero }

/-- Lines 128 to 130: the URL of the upstream request. -/
def endpoint (searchKey : GoString) (pageSize page : Int) (apiKey : GoString) : GoString :=
  ascii "https://newsapi.org/v2/everything?q=" ++ QueryEscape searchKey
    ++ ascii "&pageSize=" ++ formatInt pageSize
    ++ ascii "&page=" ++ formatInt page
    ++ ascii "&apiKey=" ++ apiKey
    ++ ascii "&sortBy=publishedAt&language=en"

/-- Lines 157 to 161: the value stored in `TotalPages`. -/
def totalPages (totalResults pageSize : Int) : Int :=
  if totalResults > 0 then
    (Float64.Ceil (Float64.div (Float64.ofInt totalResults) (Float64.ofInt pageSize))).toInt
  else 0

/-- The function `searchHandler`, as the sequence of its observable steps. The
`if` of lines 167 to 173 has an empty body and does nothing. -/
def searchHandler (env : Env) (r : Request) : List Event :=
  match r.parsedURL with
  | none =>
    [Event.httpError (ascii "Internal server error: URL parsing failed") StatusInternalServerError]
  | some u =>
    let searchData := searchData u
    if searchData.SearchKey = [] then
      if env.tplExecute searchData then [Event.execute searchData]
      else [Event.execute searchData,
            Event.httpError (ascii "Internal server error") StatusInternalServerError]
    else
      let pageSize : Int := 20
      let endpoint := endpoint searchData.SearchKey pageSize searchData.QueryPage env.apiKey
      match env.httpGet endpoint with
      | none =>
        [Event.httpGet endpoint,
         Event.httpError (ascii "Service not available") StatusServiceUnavailable]
      | some resp =>
        if resp.StatusCode ≠ StatusOK then
          [Event.httpGet endpoint,
           Event.httpError (ascii "No results or API error") StatusNoContent]
        else
          match decodeResults env.parsers searchData.Results resp.Body with
          | none =>
            [Event.httpGet endpoint, Event.decode resp.Body,
             Event.httpError (ascii "Error processing news data") StatusInternalServerError]
          | some results =>
            let searchData := { searchData with Results := results }
            let searchData :=
              { searchData with TotalPages := totalPages searchData.Results.TotalResults pageSize }
            if env.tplExecute searchData then
              [Event.httpGet endpoint, Event.decode resp.Body, Event.execute searchData]
            else
              [Event.httpGet endpoint, Event.decode resp.Body, Event.execute searchData,
               Event.httpError (ascii "Internal server error") StatusInternalServerError]

/-! ## Reading the upstream URL back

How the receiving side reads a request URL, as `url.Parse` and `URL.Query` do:
the fragment is cut at the first `#`, the query is what follows the first `?`. -/

/-- The raw query of a URL text. -/
def rawQueryOf (rawURL : GoString) : GoString :=
  ((cut 63 (cut 35 rawURL).1).2).getD []

/-- The query parameters of a URL text. -/
def queryOf (rawURL : GoString) : Values := ParseQuery (rawQueryOf rawURL)

/-! ## Decimal texts

What it means for the text of a parameter to be a base-10 integer: an optional
sign followed by at least one decimal digit; its value is read digit by digit. -/

/-- A decimal digit. -/
def isDigit (c : Byte) : Bool := decide (48 ≤ c.val ∧ c.val ≤ 57)

/-- The number written by a digit sequence, continuing from `n`. -/
def digitsValue (s : GoString) (n : Nat) : Nat := s.foldl (fun n c => n * 10 + (c.val - 48)) n

/-- The text is an optional sign followed by one or more decimal digits. -/
def isDecimalInteger (s : GoString) : Bool :=
  match s with
  | [] => false
  | c :: cs =>
    if c.val = 43 ∨ c.val = 45 then cs.all isDigit && !cs.isEmpty
    else s.all isDigit

/-- The integer a decimal text denotes. -/
def decimalValue (s : GoString) : Int :=
  match s with
  | [] => 0
  | c :: cs =>
    if c.val = 45 then -((digitsValue cs 0 : Nat) : Int)
    else if c.val = 43 then ((digitsValue cs 0 : Nat) : Int)
    else ((digitsValue s 0 : Nat) : Int)

/-! ## Schema mismatches

The mismatches between a response body and `Results` that can be read off the
top level of the body. -/

/-- A JSON string or `null`. -/
def isStringOrNull : Json → Bool
  | .null => true
  | .string _ => true
  | _ => false

/-- A JSON number that `ParseInt` accepts, or `null`. -/
def isIntOrNull : Json → Bool
  | .null => true
  | .number lit =>
    match ParseInt lit with
    | .ok _ => true
    | .error _ => false
  | _ => false

/-- A JSON array or `null`. -/
def isArrayOrNull : Json → Bool
  | .null => true
  | .array _ => true
  | _ => false

/-- A member of the top-level object that names a field of `Results` and holds a
value of the wrong kind for it. -/
def wrongKind (kv : GoString × Json) : Bool :=
  (keyIs kv.1 "status" && !isStringOrNull kv.2) ||
    (keyIs kv.1 "totalResults" && !isIntOrNull kv.2) ||
    (keyIs kv.1 "articles" && !isArrayOrNull kv.2)

/-- The body is not JSON, is a JSON value other than an object or `null`, or is
an object with a member of the wrong kind. -/
def schemaMismatch : Option Json → Bool
  | none => true
  | some .null => false
  | some (.object members) => members.any wrongKind
  | some _ => true

/-- The bytes that `QueryEscape` can produce. -/
def isEscapedByte (b : Byte) : Bool :=
  decide ((97 ≤ b.val ∧ b.val ≤ 122) ∨ (65 ≤ b.val ∧ b.val ≤ 90) ∨ (48 ≤ b.val ∧ b.val ≤ 57) ∨
    b.val = 45 ∨ b.val = 95 ∨ b.val = 46 ∨ b.val = 126 ∨ b.val = 37 ∨ b.val = 43)

/-! ## Sample collaborators -/

/-- An environment with the key `KEY`, whose upstream always answers `resp`,
whose template always executes, and whose parsers accept nothing. -/
def sampleEnv (resp : Response) : Env :=
  ⟨ascii "KEY", fun _ => some resp, fun _ => true, ⟨fun _ => none, fun _ => false⟩⟩

/-- A request with the given raw query. -/
def sampleRequest (rawQuery : String) : Request := ⟨some ⟨ascii rawQuery⟩⟩

/-- A body with `status` and `totalResults` and without `articles`. -/
def bodyWithoutArticles (totalResults : String) : Json :=
  .object [(ascii "status", .string (ascii "ok")), (ascii "totalResults", .number (ascii totalResults))]

/-- A body with `status`, `totalResults` and an empty `articles` array. -/
def bodyEmptyArticles (totalResults : String) : Json :=
  .object [(ascii "status", .string (ascii "ok")),
    (ascii "totalResults", .number (ascii totalResults)), (ascii "articles", .array [])]

/-! # Properties -/

set_option maxRecDepth 100000

/-! ## `strconv` against decimal texts -/

theorem digitsValue_cons (c : Byte) (cs : GoString) (n : Nat) :
    digitsValue (c :: cs) n = digitsValue cs (n * 10 + (c.val - 48)) := rfl

theorem digitsValue_append (s t : GoString) (n : Nat) :
    digitsValue (s ++ t) n = digitsValue t (digitsValue s n) := by
  simp [digitsValue, List.foldl_append]

theorem le_digitsValue (s : GoString) (n : Nat) : n ≤ digitsValue s n := by
  induction s generalizing n with
  | nil => simp [digitsValue]
  | cons c cs ih =>
    have h := ih (n * 10 + (c.val - 48))
    rw [digitsValue_cons]
    omega

/-- A successful digit loop has read digits only, and returns their value. -/
theorem parseUintLoop_ok (s : GoString) (n v : Nat) (h : parseUintLoop s n = .ok v) :
    s.all isDigit = true ∧ v = digitsValue s n := by
  induction s generalizing n with
  | nil =>
    simp only [parseUintLoop, Except.ok.injEq] at h
    simp [digitsValue, h]
  | cons c cs ih =>
    rw [parseUintLoop] at h
    split_ifs at h with h1 h2 h3
    obtain ⟨ha, hv⟩ := ih _ h
    refine ⟨?_, by rw [digitsValue_cons]; exact hv⟩
    simp [List.all_cons, isDigit, h1, ha]

/-- The digit loop succeeds on digits whose value fits a `uint64`. -/
theorem parseUintLoop_digits (s : GoString) (n : Nat) (hd : s.all isDigit = true)
    (hv : digitsValue s n ≤ maxUint64) : parseUintLoop s n = .ok (digitsValue s n) := by
  induction s generalizing n with
  | nil => simp [parseUintLoop, digitsValue]
  | cons c cs ih =>
    rw [digitsValue_cons] at hv ⊢
    simp only [List.all_cons, Bool.and_eq_true, isDigit, decide_eq_true_eq] at hd
    have hge := le_digitsValue cs (n * 10 + (c.val - 48))
    have hmax : maxUint64 = 18446744073709551615 := by decide
    rw [parseUintLoop, if_pos hd.1, if_neg (by omega), if_neg (by omega)]
    exact ih _ hd.2 hv

theorem ParseUint_ok (s : GoString) (un : Nat) (h : ParseUint s = .ok un) :
    s ≠ [] ∧ s.all isDigit = true ∧ un = digitsValue s 0 := by
  simp only [ParseUint] at h
  split_ifs at h with hnil
  exact ⟨hnil, parseUintLoop_ok _ _ _ h⟩

theorem ParseUint_digits (s : GoString) (hne : s ≠ []) (hd : s.all isDigit = true)
    (hv : digitsValue s 0 ≤ maxUint64) : ParseUint s = .ok (digitsValue s 0) := by
  simp only [ParseUint, if_neg hne]
  exact parseUintLoop_digits s 0 hd hv

/-- A successful `ParseInt` has read a decimal integer, and returns its value. -/
theorem ParseInt_ok (s : GoString) (z : Int) (h : ParseInt s = .ok z) :
    isDecimalInteger s = true ∧ decimalValue s = z := by
  cases s with
  | nil => simp [ParseInt] at h
  | cons c cs =>
    by_cases h45 : c.val = 45
    · simp only [ParseInt, h45, or_true, if_true, not_true_eq_false, false_and, if_false,
        true_and] at h
      split at h
      · simp at h
      · rename_i un hun
        obtain ⟨hne, ha, hv⟩ := ParseUint_ok _ _ hun
        split_ifs at h
        simp only [Except.ok.injEq] at h
        refine ⟨by simp [isDecimalInteger, h45, ha, hne], ?_⟩
        simp [decimalValue, h45, ← hv, h]
    · by_cases h43 : c.val = 43
      · simp only [ParseInt, h43, true_or, if_true, not_false_eq_true, false_and, if_false,
          true_and, (by decide : ¬ (43 : Nat) = 45)] at h
        split at h
        · simp at h
        · rename_i un hun
          obtain ⟨hne, ha, hv⟩ := ParseUint_ok _ _ hun
          split_ifs at h
          simp only [Except.ok.injEq] at h
          refine ⟨by simp [isDecimalInteger, h43, ha, hne], ?_⟩
          simp [decimalValue, h43, ← hv, h]
      · simp only [ParseInt, h45, h43, or_self, if_false, not_false_eq_true, false_and,
          true_and] at h
        split at h
        · simp at h
        · rename_i un hun
          obtain ⟨hne, ha, hv⟩ := ParseUint_ok _ _ hun
          split_ifs at h
          simp only [Except.ok.injEq] at h
          refine ⟨by simp only [isDecimalInteger, h43, h45, or_self, if_false]; exact ha, ?_⟩
          simp [decimalValue, h43, h45, ← hv, h]

/-- On a decimal integer whose value fits an `int64`, `ParseInt` returns the value. -/
theorem ParseInt_decimal (s : GoString) (hd : isDecimalInteger s = true)
    (hlo : minInt64 ≤ decimalValue s) (hhi : decimalValue s ≤ maxInt64) :
    ParseInt s = .ok (decimalValue s) := by
  have hmax : maxUint64 = 18446744073709551615 := by decide
  have hmaxi : maxInt64 = 9223372036854775807 := by decide
  have hmini : minInt64 = -9223372036854775808 := by decide
  cases s with
  | nil => simp [isDecimalInteger] at hd
  | cons c cs =>
    by_cases h45 : c.val = 45
    · simp only [isDecimalInteger, h45, or_true, if_true, Bool.and_eq_true, Bool.not_eq_true',
        List.isEmpty_eq_false] at hd
      simp only [decimalValue, h45, if_true] at hlo hhi ⊢
      have hu := ParseUint_digits cs hd.2 hd.1 (by omega)
      simp only [ParseInt, h45, or_true, if_true, hu, not_true_eq_false, false_and, if_false,
        true_and]
      rw [if_neg (by omega)]
    · by_cases h43 : c.val = 43
      · simp only [isDecimalInteger, h43, true_or, if_true, Bool.and_eq_true, Bool.not_eq_true',
          List.isEmpty_eq_false] at hd
        simp only [decimalValue, h43, if_true, if_false,
          (by decide : ¬ (43 : Nat) = 45)] at hlo hhi ⊢
        have hu := ParseUint_digits cs hd.2 hd.1 (by omega)
        simp only [ParseInt, h43, true_or, if_true, hu, not_false_eq_true, false_and,
          if_false, true_and, (by decide : ¬ (43 : Nat) = 45)]
        rw [if_neg (by omega)]
      · simp only [isDecimalInteger, h43, h45, or_self, if_false] at hd
        simp only [decimalValue, h43, h45, if_false] at hlo hhi ⊢
        have hu := ParseUint_digits (c :: cs) (by simp) hd (by omega)
        simp only [ParseInt, h43, h45, or_self, if_false, hu, not_false_eq_true, false_and,
          true_and]
        rw [if_neg (by omega)]

/-! ## The decimal text of a number -/

theorem toDigitsCore_eq (fuel : Nat) : ∀ (n : Nat) (ds : List Char), n < fuel →
    Nat.toDigitsCore 10 fuel n ds = Nat.toDigits 10 n ++ ds := by
  induction fuel using Nat.strong_induction_on with
  | _ fuel ih =>
    intro n ds hn
    cases fuel with
    | zero => omega
    | succ fuel =>
      by_cases h0 : n / 10 = 0
      · simp [Nat.toDigits, Nat.toDigitsCore, h0]
      · have h1 : Nat.toDigitsCore 10 (fuel + 1) n ds
            = Nat.toDigitsCore 10 fuel (n / 10) (Nat.digitChar (n % 10) :: ds) := by
          simp [Nat.toDigitsCore, h0]
        have h2 : Nat.toDigits 10 n
            = Nat.toDigitsCore 10 n (n / 10) [Nat.digitChar (n % 10)] := by
          simp [Nat.toDigits, Nat.toDigitsCore, h0]
        rw [h1, h2, ih fuel (by omega) (n / 10) _ (by omega), ih n (by omega) (n / 10) _ (by omega)]
        simp

theorem toDigits_lt_ten (n : Nat) (h : n < 10) : Nat.toDigits 10 n = [Nat.digitChar n] := by
  have h0 : n / 10 = 0 := by omega
  have h1 : n % 10 = n := by omega
  simp [Nat.toDigits, Nat.toDigitsCore, h0, h1]

theorem toDigits_ten_le (n : Nat) (h : 10 ≤ n) :
    Nat.toDigits 10 n = Nat.toDigits 10 (n / 10) ++ [Nat.digitChar (n % 10)] := by
  have h0 : ¬ n / 10 = 0 := by omega
  have h2 : Nat.toDigits 10 n = Nat.toDigitsCore 10 n (n / 10) [Nat.digitChar (n % 10)] := by
    simp [Nat.toDigits, Nat.toDigitsCore, h0]
  rw [h2, toDigitsCore_eq n (n / 10) _ (by omega)]

theorem charByte_digitChar (d : Nat) (h : d < 10) :
    (charByte (Nat.digitChar d)).val = 48 + d := by
  interval_cases d <;> rfl

theorem decimalText_lt_ten (n : Nat) (h : n < 10) :
    decimalText n = [charByte (Nat.digitChar n)] := by
  simp [decimalText, toDigits_lt_ten n h]

theorem decimalText_ten_le (n : Nat) (h : 10 ≤ n) :
    decimalText n = decimalText (n / 10) ++ [charByte (Nat.digitChar (n % 10))] := by
  simp [decimalText, toDigits_ten_le n h]

/-- The decimal text of `n` is a non-empty run of digits whose value is `n`. -/
theorem decimalText_spec (n : Nat) :
    decimalText n ≠ [] ∧ (decimalText n).all isDigit = true ∧ digitsValue (decimalText n) 0 = n := by
  induction n using Nat.strong_induction_on with
  | _ n ih =>
    by_cases h : n < 10
    · have hb := charByte_digitChar n h
      rw [decimalText_lt_ten n h]
      refine ⟨by simp, ?_, ?_⟩
      · simp only [List.all_cons, List.all_nil, Bool.and_true, isDigit, decide_eq_true_eq]
        omega
      · simp only [digitsValue, List.foldl_cons, List.foldl_nil]
        omega
    · have hb := charByte_digitChar (n % 10) (Nat.mod_lt _ (by decide))
      obtain ⟨_, ha, hv⟩ := ih (n / 10) (by omega)
      rw [decimalText_ten_le n (by omega)]
      refine ⟨by simp, ?_, ?_⟩
      · simp only [List.all_append, ha, List.all_cons, List.all_nil, Bool.and_true,
          Bool.true_and, isDigit, decide_eq_true_eq]
        omega
      · rw [digitsValue_append, hv]
        simp only [digitsValue, List.foldl_cons, List.foldl_nil]
        omega

/-- The decimal text of a number is a decimal integer, and denotes the number. -/
theorem decimalText_decimal (n : Nat) :
    isDecimalInteger (decimalText n) = true ∧ decimalValue (decimalText n) = (n : Int) := by
  obtain ⟨hne, ha, hv⟩ := decimalText_spec n
  cases hs : decimalText n with
  | nil => exact absurd hs hne
  | cons c cs =>
    rw [hs] at ha hv
    have hc : 48 ≤ c.val ∧ c.val ≤ 57 := by
      simp only [List.all_cons, Bool.and_eq_true, isDigit, decide_eq_true_eq] at ha
      exact ha.1
    have h43 : ¬ c.val = 43 := by omega
    have h45 : ¬ c.val = 45 := by omega
    refine ⟨by simp only [isDecimalInteger, h43, h45, or_self, if_false]; exact ha, ?_⟩
    simp [decimalValue, h43, h45, hv]

/-- On the decimal text of a number that fits an `int`, `Atoi` returns the number. -/
theorem Atoi_decimalText (n : Nat) (h : (n : Int) ≤ maxInt64) : Atoi (decimalText n) = .ok (n : Int) := by
  obtain ⟨hd, hv⟩ := decimalText_decimal n
  have hmini : minInt64 = -9223372036854775808 := by decide
  have := ParseInt_decimal (decimalText n) hd (by rw [hv]; omega) (by rw [hv]; exact h)
  rw [hv] at this
  exact this

/-! ## The page parameter -/

theorem Values.Get_absent (v : Values) (key : GoString) (h : ∀ kv ∈ v, kv.1 ≠ key) :
    v.Get key = [] := by
  have hf : v.find? (fun kv => kv.1 = key) = none := by
    rw [List.find?_eq_none]
    intro kv hkv
    simpa using h kv hkv
  simp [Values.Get, hf]

/-- The page stored by `searchData`, in terms of the raw text of `page`. -/
theorem searchData_QueryPage (u : URL) :
    (searchData u).QueryPage =
      match Atoi (if u.Query.Get (ascii "page") = [] then ascii "1"
        else u.Query.Get (ascii "page")) with
      | .error _ => 1
      | .ok page => if page < 1 then 1 else page := rfl

/-- C2. Whenever the raw `page` parameter is absent, empty, not a base-10
integer (an optional sign followed by decimal digits), or denotes zero or a
negative number, the page stored in `Search.QueryPage` is 1. -/
theorem C2_page_defaults_to_one (u : URL)
    (h : (∀ kv ∈ u.Query, kv.1 ≠ ascii "page") ∨ u.Query.Get (ascii "page") = [] ∨
      isDecimalInteger (u.Query.Get (ascii "page")) = false ∨
      decimalValue (u.Query.Get (ascii "page")) ≤ 0) :
    (searchData u).QueryPage = 1 := by
  rw [searchData_QueryPage]
  by_cases hempty : u.Query.Get (ascii "page") = []
  · rw [if_pos hempty]
    rfl
  · rw [if_neg hempty]
    rcases h with h | h | h | h
    · exact absurd (Values.Get_absent _ _ h) hempty
    · exact absurd h hempty
    · cases hp : Atoi (u.Query.Get (ascii "page")) with
      | error e => rfl
      | ok z =>
        have := (ParseInt_ok _ _ hp).1
        rw [h] at this
        exact absurd this (by decide)
    · cases hp : Atoi (u.Query.Get (ascii "page")) with
      | error e => rfl
      | ok z =>
        have hz := (ParseInt_ok _ _ hp).2
        have hlt : z < 1 := by omega
        simp [hlt]

/-- C2 at the raw query `q=go&page=-3`: the page is negative, the stored page is 1. -/
theorem C2_page_defaults_to_one_witness :
    decimalValue ((URL.mk (ascii "q=go&page=-3")).Query.Get (ascii "page")) ≤ 0 ∧
      (searchData (URL.mk (ascii "q=go&page=-3"))).QueryPage = 1 :=
  ⟨by decide, C2_page_defaults_to_one (URL.mk (ascii "q=go&page=-3"))
    (Or.inr (Or.inr (Or.inr (by decide))))⟩

/-- C3, as stated, fails: the `page` parameter `9223372036854775808` is the
base-10 text of the positive integer `2 ^ 63`, and the stored page is 1. -/
theorem C3_page_out_of_range_counterexample :
    (URL.mk (ascii "q=go&page=9223372036854775808")).Query.Get (ascii "page")
        = decimalText 9223372036854775808 ∧
      (searchData (URL.mk (ascii "q=go&page=9223372036854775808"))).QueryPage = 1 ∧
      (searchData (URL.mk (ascii "q=go&page=9223372036854775808"))).QueryPage
        ≠ 9223372036854775808 := by
  decide

/-- C3, amended. Whenever the raw `page` parameter is the base-10 text of a
positive integer `n` that fits the 64-bit `int` (`n ≤ 2 ^ 63 - 1`), the page
stored in `Search.QueryPage` is `n`. -/
theorem C3_page_kept_exactly (u : URL) (n : Nat) (hpos : 1 ≤ n) (hfit : (n : Int) ≤ maxInt64)
    (hraw : u.Query.Get (ascii "page") = decimalText n) :
    (searchData u).QueryPage = (n : Int) := by
  rw [searchData_QueryPage, hraw, if_neg (decimalText_spec n).1, Atoi_decimalText n hfit]
  have : ¬ ((n : Int) < 1) := by omega
  simp [this]

/-- C3 amended, at the raw query `q=go&page=100`. -/
theorem C3_page_kept_exactly_witness :
    (searchData (URL.mk (ascii "q=go&page=100"))).QueryPage = 100 :=
  C3_page_kept_exactly (URL.mk (ascii "q=go&page=100")) 100 (by decide) (by decide) (by decide)

/-! ## Percent-encoding -/

theorem upperhex_nibble : ∀ d : Fin 16,
    ishex (upperhex d.val) = true ∧ unhex (upperhex d.val) = d.val ∧
      ((48 ≤ (upperhex d.val).val ∧ (upperhex d.val).val ≤ 57) ∨
        (65 ≤ (upperhex d.val).val ∧ (upperhex d.val).val ≤ 70)) := by
  decide

theorem upperhex_spec (d : Nat) (h : d < 16) :
    ishex (upperhex d) = true ∧ unhex (upperhex d) = d ∧
      ((48 ≤ (upperhex d).val ∧ (upperhex d).val ≤ 57) ∨
        (65 ≤ (upperhex d).val ∧ (upperhex d).val ≤ 70)) :=
  upperhex_nibble ⟨d, h⟩

theorem Byte.ofNat_val (c : Byte) : (Fin.ofNat c.val : Byte) = c := by
  apply Fin.ext
  simp only [Fin.ofNat, Fin.val_mk]
  exact Nat.mod_eq_of_lt c.isLt

theorem shouldEscape_false (c : Byte) (h : shouldEscape c = false) :
    (97 ≤ c.val ∧ c.val ≤ 122) ∨ (65 ≤ c.val ∧ c.val ≤ 90) ∨ (48 ≤ c.val ∧ c.val ≤ 57) ∨
      c.val = 45 ∨ c.val = 95 ∨ c.val = 46 ∨ c.val = 126 := by
  unfold shouldEscape at h
  split_ifs at h with h1 h2
  · omega
  · omega

theorem QueryEscape_cons (c : Byte) (cs : GoString) :
    QueryEscape (c :: cs) =
      if c.val = 32 then (43 : Byte) :: QueryEscape cs
      else if shouldEscape c then
        (37 : Byte) :: upperhex (c.val / 16) :: upperhex (c.val % 16) :: QueryEscape cs
      else c :: QueryEscape cs := rfl

theorem unescapeValid_other (c : Byte) (cs : GoString) (h : ¬ c.val = 37) :
    unescapeValid (c :: cs) = unescapeValid cs := by
  rcases cs with _ | ⟨d, _ | ⟨e, rest⟩⟩ <;> simp [unescapeValid, h]

theorem unescapeValid_percent (h1 h2 : Byte) (rest : GoString) :
    unescapeValid ((37 : Byte) :: h1 :: h2 :: rest)
      = (ishex h1 && ishex h2 && unescapeValid rest) := rfl

theorem unescapeBytes_other (c : Byte) (cs : GoString) (h : ¬ c.val = 37) :
    unescapeBytes (c :: cs)
      = if c.val = 43 then (32 : Byte) :: unescapeBytes cs else c :: unescapeBytes cs := by
  rcases cs with _ | ⟨d, _ | ⟨e, rest⟩⟩ <;> simp [unescapeBytes, h]

theorem unescapeBytes_percent (h1 h2 : Byte) (rest : GoString) :
    unescapeBytes ((37 : Byte) :: h1 :: h2 :: rest)
      = Fin.ofNat (unhex h1 * 16 + unhex h2) :: unescapeBytes rest := rfl

/-- Both passes of `unescape` on an escaped text: it is well formed, and it
decodes to the text that was escaped. -/
theorem unescape_QueryEscape (s : GoString) :
    unescapeValid (QueryEscape s) = true ∧ unescapeBytes (QueryEscape s) = s := by
  induction s with
  | nil => exact ⟨rfl, rfl⟩
  | cons c cs ih =>
    obtain ⟨ihv, ihb⟩ := ih
    rw [QueryEscape_cons]
    by_cases h32 : c.val = 32
    · rw [if_pos h32]
      have hc : (32 : Byte) = c := Fin.ext h32.symm
      refine ⟨?_, ?_⟩
      · rw [unescapeValid_other _ _ (by decide)]
        exact ihv
      · rw [unescapeBytes_other _ _ (by decide), if_pos (by decide), ihb, hc]
    · rw [if_neg h32]
      by_cases he : shouldEscape c = true
      · rw [if_pos he]
        obtain ⟨hi1, hi2, _⟩ := upperhex_spec (c.val / 16) (by have := c.isLt; omega)
        obtain ⟨lo1, lo2, _⟩ := upperhex_spec (c.val % 16) (Nat.mod_lt _ (by decide))
        refine ⟨?_, ?_⟩
        · rw [unescapeValid_percent]
          simp [hi1, lo1, ihv]
        · rw [unescapeBytes_percent]
          simp only [hi2, lo2, ihb]
          have : c.val / 16 * 16 + c.val % 16 = c.val := by omega
          rw [this, Byte.ofNat_val]
      · rw [if_neg he]
        have hu := shouldEscape_false c (by simpa using he)
        have h37 : ¬ c.val = 37 := by omega
        have h43 : ¬ c.val = 43 := by omega
        refine ⟨?_, ?_⟩
        · rw [unescapeValid_other _ _ h37]
          exact ihv
        · rw [unescapeBytes_other _ _ h37, if_neg h43, ihb]

theorem QueryUnescape_QueryEscape (s : GoString) : QueryUnescape (QueryEscape s) = some s := by
  obtain ⟨hv, hb⟩ := unescape_QueryEscape s
  simp [QueryUnescape, hv, hb]

/-- C5. For every byte string `term` (whatever bytes it contains: `&`, `=`,
space, `+`, `%`, `#`, bytes of non-ASCII characters), unescaping the
query-escaped term succeeds and gives back exactly `term`. -/
theorem C5_query_escape_roundtrip (term : GoString) :
    QueryUnescape (QueryEscape term) = some term :=
  QueryUnescape_QueryEscape term

/-- An escaped text consists of letters, digits, `-`, `_`, `.`, `~`, `%` and `+`. -/
theorem QueryEscape_bytes (s : GoString) : ∀ b ∈ QueryEscape s, isEscapedByte b = true := by
  induction s with
  | nil => simp [QueryEscape]
  | cons c cs ih =>
    intro b hb
    rw [QueryEscape_cons] at hb
    split_ifs at hb with h32 he
    · rcases List.mem_cons.mp hb with rfl | hb
      · decide
      · exact ih b hb
    · obtain ⟨_, _, hi⟩ := upperhex_spec (c.val / 16) (by have := c.isLt; omega)
      obtain ⟨_, _, lo⟩ := upperhex_spec (c.val % 16) (Nat.mod_lt _ (by decide))
      simp only [List.mem_cons] at hb
      rcases hb with rfl | rfl | rfl | hb
      · decide
      · simp only [isEscapedByte, decide_eq_true_eq]; omega
      · simp only [isEscapedByte, decide_eq_true_eq]; omega
      · exact ih b hb
    · rcases List.mem_cons.mp hb with rfl | hb
      · have hu := shouldEscape_false b (by simpa using he)
        simp only [isEscapedByte, decide_eq_true_eq]; omega
      · exact ih b hb

/-! ## Reading the upstream URL back -/

theorem cut_append (sep : Byte) (a b : GoString) (h : ∀ c ∈ a, c ≠ sep) :
    cut sep (a ++ b) = (a ++ (cut sep b).1, (cut sep b).2) := by
  induction a with
  | nil => rfl
  | cons c cs ih =>
    have hc : c ≠ sep := h c (List.mem_cons_self _ _)
    have ih := ih (fun x hx => h x (List.mem_cons_of_mem _ hx))
    show cut sep (c :: (cs ++ b)) = _
    rw [cut, if_neg hc, ih]
    rfl

theorem cut_sep (sep : Byte) (b : GoString) : cut sep (sep :: b) = ([], some b) := by
  simp [cut]

theorem cut_none (sep : Byte) (a : GoString) (h : ∀ c ∈ a, c ≠ sep) : cut sep a = (a, none) := by
  have := cut_append sep a [] h
  simpa [cut] using this

theorem splitAmp_append (a b cur : GoString) (h : ∀ c ∈ a, c.val ≠ 38) :
    splitAmp (a ++ b) cur = splitAmp b (a.reverse ++ cur) := by
  induction a generalizing cur with
  | nil => rfl
  | cons c cs ih =>
    have hc : ¬ c.val = 38 := h c (List.mem_cons_self _ _)
    have ih := ih (c :: cur) (fun x hx => h x (List.mem_cons_of_mem _ hx))
    show splitAmp (c :: (cs ++ b)) cur = _
    rw [splitAmp, if_neg hc, ih]
    simp

/-- A piece without `&` in front of an `&`. -/
theorem splitAmp_piece (a b : GoString) (h : ∀ c ∈ a, c.val ≠ 38) :
    splitAmp (a ++ (38 : Byte) :: b) [] = a :: splitAmp b [] := by
  rw [splitAmp_append a _ [] h, splitAmp, if_pos (by decide)]
  simp

/-- A last piece without `&`. -/
theorem splitAmp_last (a : GoString) (h : ∀ c ∈ a, c.val ≠ 38) : splitAmp a [] = [a] := by
  have := splitAmp_append a [] [] h
  simpa [splitAmp] using this

/-- A text without `%` and `+` unescapes to itself. -/
theorem unescape_plain (s : GoString) (h : ∀ c ∈ s, c.val ≠ 37 ∧ c.val ≠ 43) :
    QueryUnescape s = some s := by
  have key : unescapeValid s = true ∧ unescapeBytes s = s := by
    induction s with
    | nil => exact ⟨rfl, rfl⟩
    | cons c cs ih =>
      obtain ⟨h37, h43⟩ := h c (List.mem_cons_self _ _)
      obtain ⟨iv, ib⟩ := ih (fun x hx => h x (List.mem_cons_of_mem _ hx))
      exact ⟨by rw [unescapeValid_other _ _ h37, iv],
        by rw [unescapeBytes_other _ _ h37, if_neg h43, ib]⟩
  simp [QueryUnescape, key.1, key.2]

/-- The text printed for an `int` consists of digits and `-`. -/
theorem formatInt_bytes (x : Int) : ∀ b ∈ formatInt x, (48 ≤ b.val ∧ b.val ≤ 57) ∨ b.val = 45 := by
  intro b hb
  have hd := (decimalText_spec x.natAbs).2.1
  rw [List.all_eq_true] at hd
  have hdig : ∀ c ∈ decimalText x.natAbs, (48 ≤ c.val ∧ c.val ≤ 57) := by
    intro c hc
    simpa [isDigit] using hd c hc
  unfold formatInt at hb
  split_ifs at hb
  · rcases List.mem_cons.mp hb with rfl | hb
    · right; rfl
    · exact Or.inl (hdig b hb)
  · exact Or.inl (hdig b hb)

/-- A key/value piece whose key is plain and whose value is an escaped text. -/
theorem parsePair_escaped (key term : GoString)
    (hk : ∀ c ∈ key, c.val ≠ 37 ∧ c.val ≠ 43 ∧ c.val ≠ 59 ∧ c.val ≠ 61) :
    parsePair (key ++ (61 : Byte) :: QueryEscape term) = some (key, term) := by
  have hsemi : ¬ (59 : Byte) ∈ key ++ (61 : Byte) :: QueryEscape term := by
    intro hm
    rcases List.mem_append.mp hm with hm | hm
    · exact (hk _ hm).2.2.1 rfl
    · rcases List.mem_cons.mp hm with hm | hm
      · exact absurd hm (by decide)
      · have := QueryEscape_bytes term _ hm
        revert this
        decide
  have hnil : ¬ key ++ (61 : Byte) :: QueryEscape term = [] := by simp
  have hcut : cut 61 (key ++ (61 : Byte) :: QueryEscape term) = (key, some (QueryEscape term)) := by
    rw [cut_append 61 key _ (fun c hc h => (hk c hc).2.2.2 (by rw [h]; rfl)), cut_sep]
    simp
  have hkey : QueryUnescape key = some key :=
    unescape_plain key (fun c hc => ⟨(hk c hc).1, (hk c hc).2.1⟩)
  simp only [parsePair, if_neg hsemi, if_neg hnil, hcut, Option.getD_some, hkey,
    QueryUnescape_QueryEscape]

theorem QueryEscape_ne (term : GoString) (b : Byte) (hb : b ∈ QueryEscape term) :
    b.val ≠ 38 ∧ b.val ≠ 61 ∧ b.val ≠ 35 ∧ b.val ≠ 63 ∧ b.val ≠ 32 ∧ b.val ≠ 59 := by
  have h := QueryEscape_bytes term b hb
  simp only [isEscapedByte, decide_eq_true_eq] at h
  omega

/-- The text of the upstream URL, cut into its parts. -/
theorem endpoint_parts (term apiKey : GoString) (page : Int) :
    endpoint term 20 page apiKey =
      ascii "https://newsapi.org/v2/everything" ++ (63 : Byte) ::
        ((ascii "q" ++ (61 : Byte) :: QueryEscape term) ++ (38 : Byte) ::
          (ascii "pageSize=20" ++ (38 : Byte) ::
            ((ascii "page=" ++ formatInt page) ++ (38 : Byte) ::
              (ascii "apiKey=" ++ apiKey ++ ascii "&sortBy=publishedAt&language=en")))) := by
  have h1 : ascii "https://newsapi.org/v2/everything?q="
      = ascii "https://newsapi.org/v2/everything" ++ (63 : Byte) :: (ascii "q" ++ [(61 : Byte)]) := by
    decide
  have h2 : ascii "&pageSize=" ++ formatInt 20 ++ ascii "&page="
      = (38 : Byte) :: (ascii "pageSize=20" ++ (38 : Byte) :: ascii "page=") := by
    decide
  have h3 : ascii "&apiKey=" = (38 : Byte) :: ascii "apiKey=" := by decide
  unfold endpoint
  rw [h1, h3]
  have h4 : ∀ x y : GoString, x ++ ascii "&pageSize=" ++ formatInt 20 ++ ascii "&page=" ++ y
      = x ++ ((ascii "&pageSize=" ++ formatInt 20 ++ ascii "&page=") ++ y) := by
    intro x y
    simp only [List.append_assoc]
  rw [h4, h2]
  simp only [List.append_assoc, List.cons_append, List.nil_append]

/-- The query parameters of the upstream URL, for every term, page and key:
`q` decodes to the term, `pageSize` is 20, `page` is the page, and what follows
is what the key and the fixed options parse to. -/
theorem queryOf_endpoint (term apiKey : GoString) (page : Int) :
    queryOf (endpoint term 20 page apiKey) =
      (ascii "q", term) :: (ascii "pageSize", ascii "20") :: (ascii "page", formatInt page) ::
        ParseQuery (cut 35 (ascii "apiKey=" ++ apiKey ++ ascii "&sortBy=publishedAt&language=en")).1
      := by
  have hE := QueryEscape_ne term
  have hP := formatInt_bytes page
  rw [endpoint_parts]
  generalize ascii "apiKey=" ++ apiKey ++ ascii "&sortBy=publishedAt&language=en" = R
  -- the fragment starts inside `R`, if anywhere
  have hfrag : cut 35 (ascii "https://newsapi.org/v2/everything" ++ (63 : Byte) ::
        ((ascii "q" ++ (61 : Byte) :: QueryEscape term) ++ (38 : Byte) ::
          (ascii "pageSize=20" ++ (38 : Byte) :: ((ascii "page=" ++ formatInt page) ++ (38 : Byte) :: R))))
      = (ascii "https://newsapi.org/v2/everything" ++ (63 : Byte) ::
        ((ascii "q" ++ (61 : Byte) :: QueryEscape term) ++ (38 : Byte) ::
          (ascii "pageSize=20" ++ (38 : Byte) ::
            ((ascii "page=" ++ formatInt page) ++ (38 : Byte) :: (cut 35 R).1))), (cut 35 R).2) := by
    have hno : ∀ c ∈ ascii "https://newsapi.org/v2/everything" ++ (63 : Byte) ::
        ((ascii "q" ++ (61 : Byte) :: QueryEscape term) ++ (38 : Byte) ::
          (ascii "pageSize=20" ++ (38 : Byte) :: ((ascii "page=" ++ formatInt page) ++ [(38 : Byte)]))),
        c ≠ (35 : Byte) := by
      intro c hc h35
      subst h35
      simp only [List.mem_append, List.mem_cons, List.mem_singleton] at hc
      rcases hc with hc | hc | (hc | hc | hc) | hc | hc | hc | (hc | hc) | hc
      · revert hc; decide
      · revert hc; decide
      · revert hc; decide
      · revert hc; decide
      · exact (hE _ hc).2.2.1 rfl
      · revert hc; decide
      · revert hc; decide
      · revert hc; decide
      · revert hc; decide
      · have := hP _ hc
        revert this; decide
      · revert hc; decide
    have := cut_append 35 _ R hno
    simpa only [List.append_assoc, List.cons_append, List.nil_append] using this
  have hquery : cut 63 (ascii "https://newsapi.org/v2/everything" ++ (63 : Byte) ::
        ((ascii "q" ++ (61 : Byte) :: QueryEscape term) ++ (38 : Byte) ::
          (ascii "pageSize=20" ++ (38 : Byte) ::
            ((ascii "page=" ++ formatInt page) ++ (38 : Byte) :: (cut 35 R).1))))
      = (ascii "https://newsapi.org/v2/everything", some
        ((ascii "q" ++ (61 : Byte) :: QueryEscape term) ++ (38 : Byte) ::
          (ascii "pageSize=20" ++ (38 : Byte) ::
            ((ascii "page=" ++ formatInt page) ++ (38 : Byte) :: (cut 35 R).1)))) := by
    rw [cut_append 63 _ _ (by decide), cut_sep]
    simp
  have hq : ∀ c ∈ ascii "q" ++ (61 : Byte) :: QueryEscape term, c.val ≠ 38 := by
    intro c hc
    rcases List.mem_append.mp hc with hc | hc
    · exact (by decide : ∀ c ∈ ascii "q", c.val ≠ 38) c hc
    · rcases List.mem_cons.mp hc with rfl | hc
      · decide
      · exact (hE _ hc).1
  have hp : ∀ c ∈ ascii "page=" ++ formatInt page, c.val ≠ 38 := by
    intro c hc
    rcases List.mem_append.mp hc with hc | hc
    · exact (by decide : ∀ c ∈ ascii "page=", c.val ≠ 38) c hc
    · have := hP _ hc
      omega
  have hpage : parsePair (ascii "page=" ++ formatInt page) = some (ascii "page", formatInt page) := by
    have hsemi : ¬ (59 : Byte) ∈ ascii "page=" ++ formatInt page := by
      intro hm
      rcases List.mem_append.mp hm with hm | hm
      · revert hm; decide
      · have := hP _ hm
        revert this; decide
    have hcut : cut 61 (ascii "page=" ++ formatInt page) = (ascii "page", some (formatInt page)) := by
      have : ascii "page=" = ascii "page" ++ [(61 : Byte)] := by decide
      rw [this, List.append_assoc, cut_append 61 _ _ (by decide)]
      simp [cut_sep]
    have hval : QueryUnescape (formatInt page) = some (formatInt page) :=
      unescape_plain _ (fun c hc => by have := hP c hc; omega)
    have hkey : QueryUnescape (ascii "page") = some (ascii "page") := by decide
    have hnil : ¬ ascii "page=" ++ formatInt page = [] := by
      have : ascii "page=" ≠ [] := by decide
      simp [this]
    simp only [parsePair, if_neg hsemi, if_neg hnil, hcut, Option.getD_some, hkey, hval]
  have hsize : parsePair (ascii "pageSize=20") = some (ascii "pageSize", ascii "20") := by decide
  have hterm := parsePair_escaped (ascii "q") term (by decide)
  simp only [queryOf, rawQueryOf, hfrag, hquery, Option.getD_some, ParseQuery]
  rw [splitAmp_piece _ _ hq, splitAmp_piece _ _ (by decide), splitAmp_piece _ _ hp]
  simp only [List.filterMap_cons, hterm, hsize, hpage]

/-- The piece that carries the key parses, if at all, to a pair named `apiKey`. -/
theorem parsePair_apiKey (apiKey : GoString) (kv : GoString × GoString)
    (h : parsePair (ascii "apiKey=" ++ apiKey) = some kv) : kv.1 = ascii "apiKey" := by
  have hcut : (cut 61 (ascii "apiKey=" ++ apiKey)).1 = ascii "apiKey" := by
    have : ascii "apiKey=" = ascii "apiKey" ++ [(61 : Byte)] := by decide
    rw [this, List.append_assoc, cut_append 61 _ _ (by decide)]
    simp [cut_sep]
  have hkey : QueryUnescape (ascii "apiKey") = some (ascii "apiKey") := by decide
  unfold parsePair at h
  split_ifs at h
  rw [hcut, hkey] at h
  split at h
  · rename_i k v hk hv
    simp only [Option.some.injEq] at hk h
    rw [← h, ← hk]
  · simp at h

/-- What follows `page` in the query of the upstream URL, for a key without
`&` and `#`. -/
theorem ParseQuery_options (apiKey : GoString) (hkey : ∀ c ∈ apiKey, c.val ≠ 38 ∧ c.val ≠ 35) :
    ParseQuery (cut 35 (ascii "apiKey=" ++ apiKey ++ ascii "&sortBy=publishedAt&language=en")).1 =
      (parsePair (ascii "apiKey=" ++ apiKey)).toList ++
        [(ascii "sortBy", ascii "publishedAt"), (ascii "language", ascii "en")] := by
  have hno : ∀ c ∈ ascii "apiKey=" ++ apiKey ++ ascii "&sortBy=publishedAt&language=en",
      c ≠ (35 : Byte) := by
    intro c hc h35
    subst h35
    simp only [List.mem_append] at hc
    rcases hc with (hc | hc) | hc
    · revert hc; decide
    · exact (hkey _ hc).2 rfl
    · revert hc; decide
  have hamp : ∀ c ∈ ascii "apiKey=" ++ apiKey, c.val ≠ 38 := by
    intro c hc
    rcases List.mem_append.mp hc with hc | hc
    · exact (by decide : ∀ c ∈ ascii "apiKey=", c.val ≠ 38) c hc
    · exact (hkey _ hc).1
  have htail : ascii "&sortBy=publishedAt&language=en"
      = (38 : Byte) :: (ascii "sortBy=publishedAt" ++ (38 : Byte) :: ascii "language=en") := by
    decide
  have hsort : parsePair (ascii "sortBy=publishedAt")
      = some (ascii "sortBy", ascii "publishedAt") := by decide
  have hlang : parsePair (ascii "language=en") = some (ascii "language", ascii "en") := by decide
  rw [cut_none 35 _ hno, htail]
  simp only [ParseQuery]
  rw [splitAmp_piece _ _ hamp, splitAmp_piece _ _ (by decide), splitAmp_last _ (by decide)]
  cases hp : parsePair (ascii "apiKey=" ++ apiKey) <;>
    simp [List.filterMap_cons, hp, hsort, hlang]

/-- C6. For every search term, the escaped term put into the upstream URL has
no `&`, `=`, `#`, `?` or space, so the term adds or changes no parameter: for
every term, page and key, the query of the URL reads back as `q` = the term,
then `pageSize` = 20, then `page` = the requested page, then what the key and
the fixed options parse to, which does not depend on the term; and for a key
that itself has no `&` or `#` the rest is the key's own pair,
`sortBy` = publishedAt and `language` = en. -/
theorem C6_term_cannot_inject (term apiKey : GoString) (page : Int) :
    (∀ b ∈ QueryEscape term,
        b.val ≠ 38 ∧ b.val ≠ 61 ∧ b.val ≠ 35 ∧ b.val ≠ 63 ∧ b.val ≠ 32) ∧
      queryOf (endpoint term 20 page apiKey) =
        (ascii "q", term) :: (ascii "pageSize", ascii "20") :: (ascii "page", formatInt page) ::
          ParseQuery
            (cut 35 (ascii "apiKey=" ++ apiKey ++ ascii "&sortBy=publishedAt&language=en")).1 ∧
      (queryOf (endpoint term 20 page apiKey)).Get (ascii "pageSize") = ascii "20" ∧
      (queryOf (endpoint term 20 page apiKey)).Get (ascii "page") = formatInt page ∧
      ((∀ c ∈ apiKey, c.val ≠ 38 ∧ c.val ≠ 35) →
        queryOf (endpoint term 20 page apiKey) =
          [(ascii "q", term), (ascii "pageSize", ascii "20"), (ascii "page", formatInt page)]
            ++ (parsePair (ascii "apiKey=" ++ apiKey)).toList
            ++ [(ascii "sortBy", ascii "publishedAt"), (ascii "language", ascii "en")] ∧
        (queryOf (endpoint term 20 page apiKey)).Get (ascii "sortBy") = ascii "publishedAt" ∧
        (queryOf (endpoint term 20 page apiKey)).Get (ascii "language") = ascii "en") := by
  have h1 : ¬ ascii "q" = ascii "pageSize" := by decide
  have h2 : ¬ ascii "q" = ascii "page" := by decide
  have h3 : ¬ ascii "q" = ascii "sortBy" := by decide
  have h4 : ¬ ascii "q" = ascii "language" := by decide
  have h5 : ¬ ascii "pageSize" = ascii "page" := by decide
  have h6 : ¬ ascii "pageSize" = ascii "sortBy" := by decide
  have h7 : ¬ ascii "pageSize" = ascii "language" := by decide
  have h8 : ¬ ascii "page" = ascii "sortBy" := by decide
  have h9 : ¬ ascii "page" = ascii "language" := by decide
  have h10 : ¬ ascii "apiKey" = ascii "sortBy" := by decide
  have h11 : ¬ ascii "apiKey" = ascii "language" := by decide
  have h12 : ¬ ascii "sortBy" = ascii "language" := by decide
  refine ⟨fun b hb => ?_, queryOf_endpoint term apiKey page, ?_, ?_, fun hkey => ?_⟩
  · have := QueryEscape_ne term b hb
    exact ⟨this.1, this.2.1, this.2.2.1, this.2.2.2.1, this.2.2.2.2.1⟩
  · rw [queryOf_endpoint]
    simp [Values.Get, List.find?_cons, h1]
  · rw [queryOf_endpoint]
    simp [Values.Get, List.find?_cons, h2, h5]
  · have hlist : queryOf (endpoint term 20 page apiKey) =
        [(ascii "q", term), (ascii "pageSize", ascii "20"), (ascii "page", formatInt page)]
          ++ (parsePair (ascii "apiKey=" ++ apiKey)).toList
          ++ [(ascii "sortBy", ascii "publishedAt"), (ascii "language", ascii "en")] := by
      rw [queryOf_endpoint, ParseQuery_options apiKey hkey]
      simp
    refine ⟨hlist, ?_, ?_⟩
    · rw [hlist]
      cases hp : parsePair (ascii "apiKey=" ++ apiKey) with
      | none => simp [Values.Get, List.find?_cons, h3, h6, h8]
      | some kv =>
        have hk := parsePair_apiKey apiKey kv hp
        simp [Values.Get, List.find?_cons, h3, h6, h8, hk, h10]
    · rw [hlist]
      cases hp : parsePair (ascii "apiKey=" ++ apiKey) with
      | none => simp [Values.Get, List.find?_cons, h4, h7, h9, h12]
      | some kv =>
        have hk := parsePair_apiKey apiKey kv hp
        simp [Values.Get, List.find?_cons, h4, h7, h9, hk, h11, h12]

/-- C6 at the term `a&b=c#d e`, page 7 and the key `KEY`. -/
theorem C6_term_cannot_inject_witness :
    queryOf (endpoint (ascii "a&b=c#d e") 20 7 (ascii "KEY")) =
      [(ascii "q", ascii "a&b=c#d e"), (ascii "pageSize", ascii "20"), (ascii "page", ascii "7"),
        (ascii "apiKey", ascii "KEY"), (ascii "sortBy", ascii "publishedAt"),
        (ascii "language", ascii "en")] :=
  ((C6_term_cannot_inject (ascii "a&b=c#d e") (ascii "KEY") 7).2.2.2.2 (by decide)).1

/-! ## The handler -/

theorem searchData_SearchKey (u : URL) : (searchData u).SearchKey = u.Query.Get (ascii "q") := rfl

theorem searchData_Results (u : URL) : (searchData u).Results = Results.zero := rfl

theorem searchData_TotalPages (u : URL) : (searchData u).TotalPages = 0 := rfl

/-- The run of the handler on a request without a search term. -/
theorem searchHandler_empty (env : Env) (r : Request) (u : URL) (hu : r.parsedURL = some u)
    (hq : u.Query.Get (ascii "q") = []) :
    searchHandler env r =
      if env.tplExecute (searchData u) then [Event.execute (searchData u)]
      else [Event.execute (searchData u),
        Event.httpError (ascii "Internal server error") StatusInternalServerError] := by
  simp only [searchHandler, hu, searchData_SearchKey, hq, if_true]

/-- The run of the handler on a request with a search term. -/
theorem searchHandler_term (env : Env) (r : Request) (u : URL) (hu : r.parsedURL = some u)
    (hq : u.Query.Get (ascii "q") ≠ []) :
    searchHandler env r =
      match env.httpGet
        (endpoint (u.Query.Get (ascii "q")) 20 (searchData u).QueryPage env.apiKey) with
      | none =>
        [Event.httpGet (endpoint (u.Query.Get (ascii "q")) 20 (searchData u).QueryPage env.apiKey),
         Event.httpError (ascii "Service not available") StatusServiceUnavailable]
      | some resp =>
        if resp.StatusCode ≠ StatusOK then
          [Event.httpGet
            (endpoint (u.Query.Get (ascii "q")) 20 (searchData u).QueryPage env.apiKey),
           Event.httpError (ascii "No results or API error") StatusNoContent]
        else
          match decodeResults env.parsers Results.zero resp.Body with
          | none =>
            [Event.httpGet
              (endpoint (u.Query.Get (ascii "q")) 20 (searchData u).QueryPage env.apiKey),
             Event.decode resp.Body,
             Event.httpError (ascii "Error processing news data") StatusInternalServerError]
          | some results =>
            if env.tplExecute ⟨u.Query.Get (ascii "q"), (searchData u).QueryPage,
                totalPages results.TotalResults 20, results⟩ then
              [Event.httpGet
                (endpoint (u.Query.Get (ascii "q")) 20 (searchData u).QueryPage env.apiKey),
               Event.decode resp.Body,
               Event.execute ⟨u.Query.Get (ascii "q"), (searchData u).QueryPage,
                 totalPages results.TotalResults 20, results⟩]
            else
              [Event.httpGet
                (endpoint (u.Query.Get (ascii "q")) 20 (searchData u).QueryPage env.apiKey),
               Event.decode resp.Body,
               Event.execute ⟨u.Query.Get (ascii "q"), (searchData u).QueryPage,
                 totalPages results.TotalResults 20, results⟩,
               Event.httpError (ascii "Internal server error") StatusInternalServerError] := by
  simp only [searchHandler, hu, searchData_SearchKey, hq, if_false, searchData_Results]

/-- C4. On a request whose `q` parameter is absent or empty, whatever `page`
is, the handler makes no upstream call and does not depend on the upstream
service: its first step hands the template a view with `TotalPages = 0`,
`TotalResults = 0` and no articles, and no step is an outbound GET or a decode. -/
theorem C4_empty_term_short_circuit (env : Env) (r : Request) (u : URL)
    (hu : r.parsedURL = some u)
    (hq : (∀ kv ∈ u.Query, kv.1 ≠ ascii "q") ∨ u.Query.Get (ascii "q") = []) :
    (searchHandler env r).head? = some (Event.execute (searchData u)) ∧
      (searchData u).TotalPages = 0 ∧
      (searchData u).Results.TotalResults = 0 ∧
      (searchData u).Results.Articles = [] ∧
      (∀ url, Event.httpGet url ∉ searchHandler env r) ∧
      (∀ body, Event.decode body ∉ searchHandler env r) ∧
      (∀ upstream : GoString → Option Response,
        searchHandler { env with httpGet := upstream } r = searchHandler env r) := by
  have hq0 : u.Query.Get (ascii "q") = [] := by
    rcases hq with hq | hq
    · exact Values.Get_absent _ _ hq
    · exact hq
  have h := searchHandler_empty env r u hu hq0
  refine ⟨?_, rfl, rfl, rfl, ?_, ?_, ?_⟩
  · rw [h]; split_ifs <;> rfl
  · intro url hm
    rw [h] at hm
    split_ifs at hm <;> simp at hm
  · intro body hm
    rw [h] at hm
    split_ifs at hm <;> simp at hm
  · intro upstream
    rw [h, searchHandler_empty _ r u hu hq0]

/-- C4 at the raw query `page=7`, with an upstream that would answer. -/
theorem C4_empty_term_short_circuit_witness :
    (searchHandler ⟨ascii "KEY", fun _ => some ⟨200, none⟩, fun _ => true, ⟨fun _ => none, fun _ => false⟩⟩
        ⟨some ⟨ascii "page=7"⟩⟩).head? = some (Event.execute (searchData ⟨ascii "page=7"⟩)) :=
  (C4_empty_term_short_circuit ⟨ascii "KEY", fun _ => some ⟨200, none⟩, fun _ => true, ⟨fun _ => none, fun _ => false⟩⟩
    ⟨some ⟨ascii "page=7"⟩⟩ ⟨ascii "page=7"⟩ rfl (Or.inr (by decide))).1

/-- C7. On a request with a non-empty term, when the upstream answers with any
status other than 200 (so with every non-success status, such as 429), the
handler does exactly two things, the GET and an `http.Error` with status 204
(not 200): the body is not decoded and no view is handed to the template. -/
theorem C7_upstream_error (env : Env) (r : Request) (u : URL) (resp : Response)
    (hu : r.parsedURL = some u) (hq : u.Query.Get (ascii "q") ≠ [])
    (hget : env.httpGet
      (endpoint (u.Query.Get (ascii "q")) 20 (searchData u).QueryPage env.apiKey) = some resp)
    (hstatus : resp.StatusCode ≠ StatusOK) :
    searchHandler env r =
        [Event.httpGet (endpoint (u.Query.Get (ascii "q")) 20 (searchData u).QueryPage env.apiKey),
         Event.httpError (ascii "No results or API error") StatusNoContent] ∧
      StatusNoContent ≠ StatusOK ∧
      (∀ body, Event.decode body ∉ searchHandler env r) ∧
      (∀ view, Event.execute view ∉ searchHandler env r) := by
  have h : searchHandler env r =
      [Event.httpGet (endpoint (u.Query.Get (ascii "q")) 20 (searchData u).QueryPage env.apiKey),
       Event.httpError (ascii "No results or API error") StatusNoContent] := by
    rw [searchHandler_term env r u hu hq, hget]
    simp only [if_pos hstatus]
  refine ⟨h, by decide, ?_, ?_⟩
  · intro body hm
    rw [h] at hm
    simp at hm
  · intro view hm
    rw [h] at hm
    simp at hm

/-- C7 at the raw query `q=go` and an upstream answering 429. -/
theorem C7_upstream_error_witness :
    searchHandler ⟨ascii "KEY", fun _ => some ⟨429, none⟩, fun _ => true, ⟨fun _ => none, fun _ => false⟩⟩
        ⟨some ⟨ascii "q=go"⟩⟩ =
      [Event.httpGet (ascii
        "https://newsapi.org/v2/everything?q=go&pageSize=20&page=1&apiKey=KEY&sortBy=publishedAt&language=en"),
       Event.httpError (ascii "No results or API error") 204] :=
  (C7_upstream_error ⟨ascii "KEY", fun _ => some ⟨429, none⟩, fun _ => true, ⟨fun _ => none, fun _ => false⟩⟩
    ⟨some ⟨ascii "q=go"⟩⟩ ⟨ascii "q=go"⟩ ⟨429, none⟩ rfl (by decide) rfl (by decide)).1

/-! ## Decode errors -/

theorem foldlM_none_of_mem {α β : Type} (f : β → α → Option β) (l : List α) (x : α)
    (hx : x ∈ l) (hf : ∀ b, f b x = none) (init : β) : l.foldlM f init = none := by
  induction l generalizing init with
  | nil => simp at hx
  | cons a l ih =>
    rw [List.foldlM_cons]
    rcases List.mem_cons.mp hx with rfl | hx
    · rw [hf]; rfl
    · cases f init a with
      | none => rfl
      | some b => exact ih hx b

/-- A member of the wrong kind makes `Results.setField` fail. -/
theorem setField_wrongKind (p : Parsers) (r : Results) (kv : GoString × Json)
    (h : wrongKind kv = true) : Results.setField p r kv = none := by
  have hst : foldKey (ascii "totalResults") ≠ foldKey (ascii "status") := by decide
  have hsa : foldKey (ascii "articles") ≠ foldKey (ascii "status") := by decide
  have hta : foldKey (ascii "articles") ≠ foldKey (ascii "totalResults") := by decide
  obtain ⟨k, v⟩ := kv
  simp only [wrongKind, Bool.or_eq_true, Bool.and_eq_true, Bool.not_eq_true'] at h
  rcases h with (⟨hk, hv⟩ | ⟨hk, hv⟩) | ⟨hk, hv⟩
  · simp only [Results.setField, hk, if_true]
    cases v <;> simp [isStringOrNull] at hv <;> simp [unmarshalString]
  · have e1 : keyIs k "status" = false := by
      simp only [keyIs, decide_eq_true_eq, decide_eq_false_iff_not] at hk ⊢
      rw [hk]; exact hst
    simp only [Results.setField, hk, e1, if_true, Bool.false_eq_true, if_false]
    cases v with
    | number lit =>
      simp only [isIntOrNull] at hv
      cases hp : ParseInt lit with
      | ok n => rw [hp] at hv; simp at hv
      | error e => simp [unmarshalInt, hp]
    | _ => first | (simp [isIntOrNull] at hv; done) | simp [unmarshalInt]
  · have e1 : keyIs k "status" = false := by
      simp only [keyIs, decide_eq_true_eq, decide_eq_false_iff_not] at hk ⊢
      rw [hk]; exact hsa
    have e2 : keyIs k "totalResults" = false := by
      simp only [keyIs, decide_eq_true_eq, decide_eq_false_iff_not] at hk ⊢
      rw [hk]; exact hta
    simp only [Results.setField, hk, e1, e2, if_true, Bool.false_eq_true, if_false]
    cases v <;> simp [isArrayOrNull] at hv <;> simp [unmarshalArticles]

/-- A body with a mismatch at its top level does not decode. -/
theorem decodeResults_mismatch (p : Parsers) (old : Results) (body : Option Json)
    (h : schemaMismatch body = true) : decodeResults p old body = none := by
  cases body with
  | none => rfl
  | some j =>
    cases j with
    | null => simp [schemaMismatch] at h
    | object members =>
      simp only [schemaMismatch, List.any_eq_true] at h
      obtain ⟨kv, hmem, hkv⟩ := h
      exact foldlM_none_of_mem _ members kv hmem
        (fun b => setField_wrongKind p b kv hkv) old
    | _ => rfl

/-- C8, as stated, fails: the upstream answers 200 with the body
`{"status":"ok","totalResults":5}`, which has no `articles` member; the decode
succeeds and the handler hands the template a view (one page, five results, no
articles) instead of ending in a decode error. -/
theorem C8_missing_articles_counterexample :
    (∀ kv ∈ [(ascii "status", Json.string (ascii "ok")),
        (ascii "totalResults", Json.number (ascii "5"))], keyIs kv.1 "articles" = false) ∧
      searchHandler (sampleEnv ⟨200, some (bodyWithoutArticles "5")⟩) (sampleRequest "q=go") =
        [Event.httpGet (ascii
          "https://newsapi.org/v2/everything?q=go&pageSize=20&page=1&apiKey=KEY&sortBy=publishedAt&language=en"),
         Event.decode (some (bodyWithoutArticles "5")),
         Event.execute ⟨ascii "go", 1, 1, ⟨ascii "ok", 5, []⟩⟩] :=
  ⟨by decide, rfl⟩

/-- C8, amended. On a request with a non-empty term, when the upstream answers
200 and the body does not decode (in particular when it is not JSON, is a JSON
value other than an object or `null`, or has a `status`, `totalResults` or
`articles` member of the wrong kind), the handler ends with an `http.Error` of
status 500 after the GET and the decode, and hands no view to the template.
A body that only lacks `articles` is not such a body. -/
theorem C8_decode_error (env : Env) (r : Request) (u : URL) (resp : Response)
    (hu : r.parsedURL = some u) (hq : u.Query.Get (ascii "q") ≠ [])
    (hget : env.httpGet
      (endpoint (u.Query.Get (ascii "q")) 20 (searchData u).QueryPage env.apiKey) = some resp)
    (hstatus : resp.StatusCode = StatusOK)
    (hbad : schemaMismatch resp.Body = true ∨
      decodeResults env.parsers Results.zero resp.Body = none) :
    searchHandler env r =
        [Event.httpGet (endpoint (u.Query.Get (ascii "q")) 20 (searchData u).QueryPage env.apiKey),
         Event.decode resp.Body,
         Event.httpError (ascii "Error processing news data") StatusInternalServerError] ∧
      (∀ view, Event.execute view ∉ searchHandler env r) := by
  have hdec : decodeResults env.parsers Results.zero resp.Body = none := by
    rcases hbad with h | h
    · exact decodeResults_mismatch _ _ _ h
    · exact h
  have h : searchHandler env r =
      [Event.httpGet (endpoint (u.Query.Get (ascii "q")) 20 (searchData u).QueryPage env.apiKey),
       Event.decode resp.Body,
       Event.httpError (ascii "Error processing news data") StatusInternalServerError] := by
    rw [searchHandler_term env r u hu hq, hget]
    simp only [hstatus, ne_eq, not_true_eq_false, if_false, hdec]
  refine ⟨h, ?_⟩
  intro view hm
  rw [h] at hm
  simp at hm

/-- C8 amended, at a body whose `articles` member is a string. -/
theorem C8_decode_error_witness :
    searchHandler (sampleEnv ⟨200, some (.object [(ascii "articles", .string (ascii "none"))])⟩)
        (sampleRequest "q=go") =
      [Event.httpGet (ascii
        "https://newsapi.org/v2/everything?q=go&pageSize=20&page=1&apiKey=KEY&sortBy=publishedAt&language=en"),
       Event.decode (some (.object [(ascii "articles", .string (ascii "none"))])),
       Event.httpError (ascii "Error processing news data") 500] :=
  (C8_decode_error (sampleEnv ⟨200, some (.object [(ascii "articles", .string (ascii "none"))])⟩)
    (sampleRequest "q=go") ⟨ascii "q=go"⟩
    ⟨200, some (.object [(ascii "articles", .string (ascii "none"))])⟩
    rfl (by decide) rfl rfl (Or.inl (by decide))).1

/-! ## The success path -/

/-- C9. The handler never clamps the page: on a request with a non-empty term,
when the upstream answers 200 and the body decodes to `res`, the GET goes to
the URL whose `page` parameter is the requested page, and the view handed to
the template has `QueryPage` = the requested page, `Results` = `res` as decoded
(so the articles as the upstream returned them) and `TotalPages` computed from
`res.TotalResults` alone, whether or not the page exceeds `TotalPages`. -/
theorem C9_page_not_clamped (env : Env) (r : Request) (u : URL) (resp : Response)
    (res : Results) (hu : r.parsedURL = some u) (hq : u.Query.Get (ascii "q") ≠ [])
    (hget : env.httpGet
      (endpoint (u.Query.Get (ascii "q")) 20 (searchData u).QueryPage env.apiKey) = some resp)
    (hstatus : resp.StatusCode = StatusOK)
    (hdec : decodeResults env.parsers Results.zero resp.Body = some res) :
    (searchHandler env r).take 3 =
        [Event.httpGet (endpoint (u.Query.Get (ascii "q")) 20 (searchData u).QueryPage env.apiKey),
         Event.decode resp.Body,
         Event.execute ⟨u.Query.Get (ascii "q"), (searchData u).QueryPage,
           totalPages res.TotalResults 20, res⟩] ∧
      (queryOf (endpoint (u.Query.Get (ascii "q")) 20 (searchData u).QueryPage env.apiKey)).Get
        (ascii "page") = formatInt (searchData u).QueryPage ∧
      (∀ url, Event.httpGet url ∈ searchHandler env r →
        url = endpoint (u.Query.Get (ascii "q")) 20 (searchData u).QueryPage env.apiKey) ∧
      (∀ view, Event.execute view ∈ searchHandler env r →
        view.QueryPage = (searchData u).QueryPage ∧ view.Results = res ∧
          view.TotalPages = totalPages res.TotalResults 20) := by
  have h := searchHandler_term env r u hu hq
  rw [hget] at h
  simp only [hstatus, ne_eq, not_true_eq_false, if_false, hdec] at h
  have hpage : (queryOf (endpoint (u.Query.Get (ascii "q")) 20 (searchData u).QueryPage
      env.apiKey)).Get (ascii "page") = formatInt (searchData u).QueryPage := by
    have h2 : ¬ ascii "q" = ascii "page" := by decide
    have h5 : ¬ ascii "pageSize" = ascii "page" := by decide
    rw [queryOf_endpoint]
    simp [Values.Get, List.find?_cons, h2, h5]
  refine ⟨?_, hpage, ?_, ?_⟩
  · rw [h]; split_ifs <;> rfl
  · intro url hm
    rw [h] at hm
    split_ifs at hm <;> simpa using hm
  · intro view hm
    rw [h] at hm
    split_ifs at hm <;>
      · simp only [List.mem_cons, List.mem_singleton, List.not_mem_nil, or_false, false_or,
          Event.execute.injEq, reduceCtorEq] at hm
        subst hm
        exact ⟨rfl, rfl, rfl⟩

/-- C9 at the raw query `q=go&page=100` and an upstream reporting 45 results
and no articles: the view has `QueryPage = 100` and `TotalPages = 3`. -/
theorem C9_page_not_clamped_witness :
    (searchHandler (sampleEnv ⟨200, some (bodyEmptyArticles "45")⟩)
        (sampleRequest "q=go&page=100")).take 3 =
      [Event.httpGet (ascii
        "https://newsapi.org/v2/everything?q=go&pageSize=20&page=100&apiKey=KEY&sortBy=publishedAt&language=en"),
       Event.decode (some (bodyEmptyArticles "45")),
       Event.execute ⟨ascii "go", 100, 3, ⟨ascii "ok", 45, []⟩⟩] :=
  (C9_page_not_clamped (sampleEnv ⟨200, some (bodyEmptyArticles "45")⟩)
    (sampleRequest "q=go&page=100") ⟨ascii "q=go&page=100"⟩ ⟨200, some (bodyEmptyArticles "45")⟩
    ⟨ascii "ok", 45, []⟩ rfl (by decide) rfl rfl rfl).1

/-! ## `float64` page arithmetic -/

theorem log2Floor_spec (fuel : Nat) : ∀ n : Nat, 0 < n → n ≤ fuel →
    2 ^ log2Floor fuel n ≤ n ∧ n < 2 ^ (log2Floor fuel n + 1) := by
  induction fuel with
  | zero => intro n h0 h1; omega
  | succ fuel ih =>
    intro n h0 h1
    by_cases h2 : n < 2
    · simp only [log2Floor, if_pos h2]
      omega
    · simp only [log2Floor, if_neg h2]
      obtain ⟨hl, hu⟩ := ih (n / 2) (by omega) (by omega)
      rw [pow_succ] at hu ⊢
      rw [pow_succ]
      omega

theorem ilog2_spec (n : Nat) (h : 0 < n) : 2 ^ ilog2 n ≤ n ∧ n < 2 ^ (ilog2 n + 1) :=
  log2Floor_spec n n h (Nat.le_refl n)

/-- The rounded quotient is within one half of the exact quotient. -/
theorem roundHalfEven_bounds (num den : Nat) (hden : 0 < den) :
    2 * (den * roundHalfEven num den) ≤ 2 * num + den ∧
      2 * num ≤ 2 * (den * roundHalfEven num den) + den := by
  have hdm := Nat.div_add_mod num den
  have hlt := Nat.mod_lt num hden
  generalize hq : num / den = q at hdm
  generalize hr : num % den = r at hdm hlt
  have hsucc : den * (q + 1) = den * q + den := by ring
  unfold roundHalfEven
  rw [hq, hr]
  split_ifs <;> (try rw [hsucc]) <;> omega

theorem roundHalfEven_one (num : Nat) : roundHalfEven num 1 = num := by
  simp [roundHalfEven, Nat.mod_one]

theorem ilog2_lt (n k : Nat) (h0 : 0 < n) (h : n < 2 ^ k) : ilog2 n < k := by
  by_contra hc
  have h1 := (ilog2_spec n h0).1
  have h2 : 2 ^ k ≤ 2 ^ ilog2 n := Nat.pow_le_pow_right (by decide) (by omega)
  omega

/-- An integer below `2 ^ 53` converts exactly. -/
theorem Float64.round_int (m : Nat) (h0 : 0 < m) (h : m < 2 ^ 53) :
    Float64.round m 1 = ⟨m * 2 ^ (52 - ilog2 m), (ilog2 m : Int) - 52⟩ := by
  have ha := ilog2_lt m 53 h0 h
  have hl := (ilog2_spec m h0).1
  have h1 : ilog2 1 = 0 := by decide
  have hm : ¬ m = 0 := by omega
  unfold Float64.round
  rw [if_neg hm, h1]
  generalize ilog2 m = a at ha hl ⊢
  have e1 : (-((a : Int) - ((0 : Nat) : Int) - 52)).toNat = 52 - a := by omega
  have e2 : ((a : Int) - ((0 : Nat) : Int) - 52).toNat = 0 := by omega
  have hp : 2 ^ a * 2 ^ (52 - a) = 2 ^ 52 := by
    rw [← pow_add]
    congr 1
    omega
  have hge : 2 ^ 52 ≤ m * 2 ^ (52 - a) := by
    rw [← hp]
    exact Nat.mul_le_mul_right _ hl
  have hcond : ¬ (m * 2 ^ (52 - a) < 4503599627370496) := by omega
  have e3 : (-((a : Int) - 52)).toNat = 52 - a := by omega
  have e4 : ((a : Int) - 52).toNat = 0 := by omega
  simp [e1, e2, e3, e4, hcond, roundHalfEven_one]

/-- The shape of a rounded quotient `n / 20` for `n ≤ 2 ^ 53`: a significand
rounded at a scale of at least `2 ^ 4`. -/
theorem Float64.round_shape (num den n : Nat) (hden : 0 < den) (hn : 0 < n) (hn2 : n ≤ 2 ^ 53)
    (h : num * 20 = n * den) :
    ∃ s : Nat, 4 ≤ s ∧ Float64.round num den = ⟨roundHalfEven (num * 2 ^ s) den, -(s : Int)⟩ := by
  have hnum : 0 < num := by
    rcases Nat.eq_zero_or_pos num with h0 | h0
    · rw [h0] at h
      have : 0 < n * den := Nat.mul_pos hn hden
      omega
    · exact h0
  have hm : ¬ num = 0 := by omega
  obtain ⟨ha1, _⟩ := ilog2_spec num hnum
  obtain ⟨_, hb2⟩ := ilog2_spec den hden
  unfold Float64.round
  rw [if_neg hm]
  generalize ilog2 num = a at ha1 ⊢
  generalize ilog2 den = b at hb2 ⊢
  -- the quotient is below `2 ^ 49`
  have hq : num * 8 < den * 2 ^ 52 := by
    have h1 : n * den ≤ 2 ^ 53 * den := Nat.mul_le_mul_right _ hn2
    omega
  have hab : a < b + 50 := by
    have h1 : 2 ^ a * 8 < 2 ^ (b + 1) * 2 ^ 52 := by
      calc 2 ^ a * 8 ≤ num * 8 := Nat.mul_le_mul_right _ ha1
        _ < den * 2 ^ 52 := hq
        _ ≤ 2 ^ (b + 1) * 2 ^ 52 := Nat.mul_le_mul_right _ (Nat.le_of_lt hb2)
    have h2 : 2 ^ (a + 3) < 2 ^ (b + 1 + 52) := by
      rw [pow_add, pow_add 2 (b + 1) 52]
      exact h1
    have := (Nat.pow_lt_pow_iff_right (by decide : 1 < 2)).mp h2
    omega
  have e1 : (-((a : Int) - (b : Int) - 52)).toNat = 52 + b - a := by omega
  have e2 : ((a : Int) - (b : Int) - 52).toNat = 0 := by omega
  have e3 : (-((a : Int) - (b : Int) - 52 - 1)).toNat = 53 + b - a := by omega
  have e4 : ((a : Int) - (b : Int) - 52 - 1).toNat = 0 := by omega
  simp only [e1, e2, pow_zero, mul_one]
  by_cases hc : num * 2 ^ (52 + b - a) < den * 2 ^ 52
  · refine ⟨53 + b - a, by omega, ?_⟩
    simp only [if_pos hc, e3, e4, pow_zero, mul_one]
    congr 1
    omega
  · refine ⟨52 + b - a, ?_, ?_⟩
    · by_contra hs
      have h3 : 52 + b - a = 3 := by omega
      rw [h3] at hc
      exact hc hq
    · simp only [if_neg hc, e1, e2, pow_zero, mul_one]
      congr 1
      omega

/-- The ceiling of the rounded quotient `n / 20` is the ceiling of the exact
quotient, for `n ≤ 2 ^ 53`. -/
theorem Float64.ceil_round (num den n : Nat) (hden : 0 < den) (hn : 0 < n) (hn2 : n ≤ 2 ^ 53)
    (h : num * 20 = n * den) :
    (Float64.Ceil (Float64.round num den)).toInt = (((n + 19) / 20 : Nat) : Int) := by
  obtain ⟨s, hs, hround⟩ := Float64.round_shape num den n hden hn hn2 h
  rw [hround]
  have hneg : ¬ (0 ≤ -(s : Int)) := by omega
  have hs' : (- -(s : Int)).toNat = s := by omega
  simp only [Float64.Ceil, if_neg hneg, hs', Float64.toInt, le_refl, if_true, Int.toNat_zero,
    pow_zero, mul_one, Nat.cast_inj]
  -- the scale is at least 16
  have hM : 16 ≤ 2 ^ s := by
    calc 16 = 2 ^ 4 := by norm_num
      _ ≤ 2 ^ s := Nat.pow_le_pow_right (by decide) hs
  obtain ⟨hb1, hb2⟩ := roundHalfEven_bounds (num * 2 ^ s) den hden
  generalize roundHalfEven (num * 2 ^ s) den = mant at hb1 hb2 ⊢
  generalize 2 ^ s = M at hM hb1 hb2 ⊢
  -- the significand is within one half of `n * M / 20`
  have hnM : 20 * (num * M) = den * (n * M) := by
    calc 20 * (num * M) = (num * 20) * M := by ring
      _ = (n * den) * M := by rw [h]
      _ = den * (n * M) := by ring
  have hup : den * (40 * mant) ≤ den * (2 * (n * M) + 20) := by
    have : den * (40 * mant) = 20 * (2 * (den * mant)) := by ring
    have : den * (2 * (n * M) + 20) = 20 * (2 * (num * M) + den) := by
      rw [mul_add, ← mul_assoc den 2, mul_comm den 2, mul_assoc 2 den, ← hnM]
      ring
    omega
  have hlo : den * (2 * (n * M)) ≤ den * (40 * mant + 20) := by
    have : den * (40 * mant + 20) = 20 * (2 * (den * mant) + den) := by ring
    have : den * (2 * (n * M)) = 20 * (2 * (num * M)) := by
      rw [← mul_assoc den 2, mul_comm den 2, mul_assoc 2 den, ← hnM]
      ring
    omega
  have hup' := Nat.le_of_mul_le_mul_left hup hden
  have hlo' := Nat.le_of_mul_le_mul_left hlo hden
  -- `n` between `20 k + 1` and `20 k + 20`
  have hk1 : (20 * ((n - 1) / 20) + 1) * M ≤ n * M := Nat.mul_le_mul_right _ (by omega)
  have hk2 : n * M ≤ (20 * ((n - 1) / 20) + 20) * M := Nat.mul_le_mul_right _ (by omega)
  have hx1 : (20 * ((n - 1) / 20) + 1) * M = 20 * (((n - 1) / 20) * M) + M := by ring
  have hx2 : (20 * ((n - 1) / 20) + 20) * M = 20 * (((n - 1) / 20) * M) + 20 * M := by ring
  rw [hx1] at hk1
  rw [hx2] at hk2
  clear hx1 hx2 hup hlo hb1 hb2 hnM
  have hres : (n + 19) / 20 = (n - 1) / 20 + 1 := by omega
  rw [hres]
  generalize (n - 1) / 20 = k at hk1 hk2 ⊢
  have hM0 : 0 < M := by omega
  have e1 : (k + 1) * M = k * M + M := by ring
  have e2 : (k + 1 + 1) * M = k * M + 2 * M := by ring
  apply Nat.div_eq_of_lt_le
  · rw [e1]
    omega
  · show mant + M - 1 < (k + 1 + 1) * M
    rw [e2]
    omega

theorem Float64.ofInt_twenty : Float64.ofInt 20 = ⟨5629499534213120, -48⟩ := by decide

/-- Up to `2 ^ 53 - 1` results the page count is the exact ceiling. -/
theorem totalPages_exact (n : Nat) (h0 : 0 < n) (h : n < 2 ^ 53) :
    totalPages (n : Int) 20 = (((n + 19) / 20 : Nat) : Int) := by
  have hpos : (n : Int) > 0 := by omega
  have ha := ilog2_lt n 53 h0 h
  have hx : Float64.ofInt (n : Int) = ⟨n * 2 ^ (52 - ilog2 n), (ilog2 n : Int) - 52⟩ := by
    simp only [Float64.ofInt, Int.toNat_ofNat, Float64.round_int n h0 h]
  unfold totalPages
  rw [if_pos hpos, Float64.ofInt_twenty, hx]
  simp only [Float64.div]
  generalize ilog2 n = a at ha ⊢
  apply Float64.ceil_round _ _ n _ h0 (by omega)
  · by_cases h4 : 4 ≤ a
    · have e1 : ((a : Int) - 52 - -48).toNat = a - 4 := by omega
      have e2 : (-48 - ((a : Int) - 52)).toNat = 0 := by omega
      have hp : 2 ^ (52 - a) * 2 ^ (a - 4) = 2 ^ 48 := by
        rw [← pow_add]
        congr 1
        omega
      rw [e1, e2]
      calc n * 2 ^ (52 - a) * 2 ^ (a - 4) * 20
          = n * (2 ^ (52 - a) * 2 ^ (a - 4)) * 20 := by ring
        _ = n * 2 ^ 48 * 20 := by rw [hp]
        _ = n * (5629499534213120 * 2 ^ 0) := by norm_num; ring
    · have e1 : ((a : Int) - 52 - -48).toNat = 0 := by omega
      have e2 : (-48 - ((a : Int) - 52)).toNat = 4 - a := by omega
      have hp : 2 ^ 48 * 2 ^ (4 - a) = 2 ^ (52 - a) := by
        rw [← pow_add]
        congr 1
        omega
      have hd : 5629499534213120 * 2 ^ (4 - a) = 20 * 2 ^ (52 - a) := by
        rw [← hp]
        norm_num
        ring
      rw [e1, e2, hd]
      ring
  · exact Nat.mul_pos (by decide) (Nat.pos_pow_of_pos _ (by decide))

/-- The page count is the exact ceiling for every count up to `2 ^ 53 + 8`. -/
theorem totalPages_eq_ceil (n : Int) (h0 : 0 ≤ n) (h : n ≤ 2 ^ 53 + 8) :
    totalPages n 20 = (n + 19) / 20 := by
  by_cases hlt : n < 2 ^ 53
  · by_cases hz : n = 0
    · rw [hz]; decide
    · obtain ⟨m, rfl⟩ := Int.eq_ofNat_of_zero_le h0
      rw [totalPages_exact m (by omega) (by omega)]
      push_cast
      rfl
  · have h1 : (9007199254740992 : Int) ≤ n := by omega
    have h2 : n ≤ 9007199254741000 := by omega
    interval_cases n <;> decide

/-- C1: the defect. With 9007199254741001 (`2 ^ 53 + 9`) results the handler
stores 450359962737050 pages, while the ceiling of the quotient by 20 is
450359962737051: the conversion to `float64` rounds the count down to
9007199254741000, which 20 divides. Up to `2 ^ 53 + 8` results the stored
count is the ceiling `(totalResults + 19) / 20`, and it is 0 exactly when there
are no results; 21 results give 2 pages and 45 give 3. -/
theorem C1_total_pages_float_defect :
    totalPages 9007199254741001 20 = 450359962737050 ∧
      ((9007199254741001 : Int) + 19) / 20 = 450359962737051 ∧
      Float64.ofInt 9007199254741001 = ⟨4503599627370500, 1⟩ ∧
      (∀ n : Int, 0 ≤ n → n ≤ 2 ^ 53 + 8 →
        totalPages n 20 = (n + 19) / 20 ∧ (totalPages n 20 = 0 ↔ n = 0)) ∧
      totalPages 21 20 = 2 ∧ totalPages 45 20 = 3 := by
  refine ⟨by decide, by decide, by decide, ?_, by decide, by decide⟩
  intro n h0 h
  have := totalPages_eq_ceil n h0 h
  refine ⟨this, ?_⟩
  rw [this]
  omega

/-- C10: the defect. On the request `q=go&page=450359962737050`, with the
upstream reporting 9007199254741001 results, the view has
`TotalPages = 450359962737050`, so `IsLastPage` is true although
`QueryPage * 20 = 9007199254741000` is below the number of results (the same
`float64` rounding as in C1). For every view with at most `2 ^ 53 + 8` results
and `QueryPage ≥ 1`, `IsLastPage` is true exactly when
`QueryPage * 20 ≥ totalResults`, and when it is false `NextPageLink` is
`QueryPage + 1` and at most `TotalPages`. -/
theorem C10_last_page_float_defect :
    (searchHandler (sampleEnv ⟨200, some (bodyEmptyArticles "9007199254741001")⟩)
        (sampleRequest "q=go&page=450359962737050")).getLast? =
      some (Event.execute
        ⟨ascii "go", 450359962737050, 450359962737050, ⟨ascii "ok", 9007199254741001, []⟩⟩) ∧
      Search.IsLastPage
        ⟨ascii "go", 450359962737050, 450359962737050, ⟨ascii "ok", 9007199254741001, []⟩⟩ = true ∧
      (450359962737050 : Int) * 20 < 9007199254741001 ∧
      (∀ (key : GoString) (page : Int) (res : Results), 1 ≤ page → 0 ≤ res.TotalResults →
        res.TotalResults ≤ 2 ^ 53 + 8 →
        (Search.IsLastPage ⟨key, page, totalPages res.TotalResults 20, res⟩ = true ↔
          page * 20 ≥ res.TotalResults) ∧
        (Search.IsLastPage ⟨key, page, totalPages res.TotalResults 20, res⟩ = false →
          Search.NextPageLink ⟨key, page, totalPages res.TotalResults 20, res⟩ = page + 1 ∧
          page + 1 ≤ totalPages res.TotalResults 20)) := by
  refine ⟨rfl, by decide, by decide, ?_⟩
  intro key page res hp h0 h
  have ht := totalPages_eq_ceil res.TotalResults h0 h
  simp only [Search.IsLastPage, Search.NextPageLink, wrapInt64, decide_eq_true_eq,
    decide_eq_false_iff_not, ht]
  refine ⟨by omega, ?_⟩
  intro hlt
  omega

end NewsApp
